import Mathlib

set_option maxRecDepth 100000

/-!
# Verification of the MLC indexing and query engine (`utils.py`)

This file gives a shallow embedding, in Lean 4, of the data model and the
operations of the MLC repository (`src/utils.py`: classes `MLCGraph` and
`MLCDB`), and proves or refutes the frozen specification claims about them.

Modelling conventions:
* Python strings are `String`; the scanning primitives (`str.split`,
  `re.sub`, `re.search`) are re-implemented over `List Char` so that every
  definition evaluates by kernel reduction.
* The RDF graph is a list of triples whose objects carry an optional
  language tag (`Obj`), mirroring what the SPARQL queries in the source
  inspect.  Each SPARQL query is translated to the corresponding filter /
  join over the triple list.
* The SQLite store is a record of three tables (`browse`, `item`,
  `series`); SQL queries are translated to list filters, and the FTS5
  `match` / `rank` primitives - which live inside SQLite - are abstract
  parameters (`Fts`).
* `json.dumps` followed by `json.loads` is modelled as the identity on the
  decoded record, and Python exceptions are modelled with `Option`
  (`none` = the call raises).
* Python's `set` (whose iteration order is arbitrary) is modelled as a
  deduplicating list in first-encounter order; claims never depend on the
  order of such lists except through explicit `sorted` calls, which are
  modelled by a stable insertion sort.
-/

/-! ## Python string primitives -/

/-- Accumulator pass of `charWords`: `cur` is the reversed current
word. -/
def charWordsAux (sep : Char → Bool) : List Char → List Char →
    List (List Char)
  | cur, [] => if cur = [] then [] else [cur.reverse]
  | cur, c :: t =>
    if sep c then
      if cur = [] then charWordsAux sep [] t
      else cur.reverse :: charWordsAux sep [] t
    else charWordsAux sep (c :: cur) t

/-- Maximal runs of characters that do *not* satisfy `sep`
(`str.split()`-style: separators collapsed, empty words dropped). -/
def charWords (sep : Char → Bool) (l : List Char) : List (List Char) :=
  charWordsAux sep [] l

/-- Python `s.split(sep)` for a one-character separator: empty pieces are
kept, and splitting the empty string yields `[""]`. -/
def splitSepList (sep : Char) : List Char → List (List Char)
  | [] => [[]]
  | c :: t =>
    if c = sep then [] :: splitSepList sep t
    else
      match splitSepList sep t with
      | [] => [[c]]
      | h :: r => (c :: h) :: r

/-- Join a list of strings with a separator (Python `sep.join(l)`). -/
def joinWith (sep : String) : List String → String
  | [] => ""
  | [s] => s
  | s :: t => s ++ sep ++ joinWith sep t

/-- Python `s.split()` (split on whitespace runs, dropping empties). -/
def pySplitWs (s : String) : List String :=
  (charWords Char.isWhitespace s.data).map String.mk

/-- Python `s.split(sep)` for a one-character separator. -/
def pySplit (sep : Char) (s : String) : List String :=
  (splitSepList sep s.data).map String.mk

/-- `regularize_string` from `utils.py`: `' '.join(_.split())`. -/
def regularize_string (s : String) : String :=
  joinWith " " (pySplitWs s)

/-- Code-point lexicographic order on char lists (Python string `<=`). -/
def charListLe : List Char → List Char → Bool
  | [], _ => true
  | _ :: _, [] => false
  | a :: as, b :: bs => if a = b then charListLe as bs else decide (a < b)

/-- Python string `<=` (code-point lexicographic). -/
def pyStrLe (a b : String) : Bool := charListLe a.data b.data

/-- Stable insertion into a sorted list. -/
def insertLe {α : Type} (le : α → α → Bool) (a : α) : List α → List α
  | [] => [a]
  | b :: t => if le a b then a :: b :: t else b :: insertLe le a t

/-- Stable insertion sort (model of Python `sorted` / SQL `ORDER BY`). -/
def sortLe {α : Type} (le : α → α → Bool) : List α → List α
  | [] => []
  | a :: t => insertLe le a (sortLe le t)

/-- Model of a Python `set` accumulated in encounter order:
append if absent. -/
def setAdd {α : Type} [DecidableEq α] (l : List α) (a : α) : List α :=
  if a ∈ l then l else l ++ [a]

/-- Accumulate a list into a set (encounter order, deduplicated). -/
def setOfList {α : Type} [DecidableEq α] (l : List α) : List α :=
  l.foldl setAdd []

/-- Python `sorted(list(s))` for a set of strings. -/
def pySortedSet (l : List String) : List String :=
  sortLe pyStrLe (setOfList l)

/-! ## Query normalization (`MLCDB.convert_raw_query_to_fts`) -/

mutual

/-- `re.sub("[^\p{L}\p{N}]+", " ", q)`: replace every maximal run of
characters that are not letters/digits (per the class `isLN`) by one
space.  `subRunsGo` is the state "inside a run of replaced characters". -/
def subRuns (isLN : Char → Bool) : List Char → List Char
  | [] => []
  | c :: t => if isLN c then c :: subRuns isLN t else ' ' :: subRunsGo isLN t

/-- Skip the rest of a non-letter/digit run. -/
def subRunsGo (isLN : Char → Bool) : List Char → List Char
  | [] => []
  | c :: t => if isLN c then c :: subRuns isLN t else subRunsGo isLN t

end

/-- `MLCDB.convert_raw_query_to_fts`, parameterized by the
letter-or-digit character class `isLN` (the source fixes it to the
Unicode classes `\p{L}\p{N}`; theorems hold for every class). -/
def convert_raw_query_to_fts (isLN : Char → Bool) (query : String) : String :=
  let query :=
    if query ≠ "" then
      -- limit queries to 256 characters
      let q := query.take 256
      -- replace all non letters/numbers with a single space
      let q := String.mk (subRuns isLN q.data)
      -- replace all whitespace with a single space
      joinWith " " (pySplitWs q)
    else query
  -- join all search terms with AND; limit to 32 search terms
  joinWith " AND " ((pySplit ' ' query).take 32)

/-- Specification-side restatement of query normalization, written from
the spec's words: truncate to 256 characters, take the maximal runs of
letter/digit characters as tokens, keep the first 32, join with
`" AND "`. -/
def specNormalizeQuery (isLN : Char → Bool) (query : String) : String :=
  joinWith " AND "
    (((charWords (fun c => !isLN c) (query.take 256).data).map String.mk).take 32)

/-! ## The RDF graph model -/

/-- An RDF object: a URI or a literal.  `val` is Python's `str(o)`;
`lang` is the literal's language tag (`""` for URIs and plain
literals). -/
structure Obj where
  val : String
  lang : String := ""
  deriving DecidableEq, Repr

/-- One RDF triple. -/
structure Triple where
  s : String
  p : String
  o : Obj
  deriving DecidableEq, Repr

/-- The loaded `rdflib.Graph`: a list of triples. -/
abbrev Graph := List Triple

def dc11 (x : String) : String := "http://purl.org/dc/elements/1.1/" ++ x
def dct (x : String) : String := "http://purl.org/dc/terms/" ++ x
def skos (x : String) : String := "http://www.w3.org/2004/02/skos/core#" ++ x
def edm (x : String) : String := "http://www.europeana.eu/schemas/edm/" ++ x

def rdf_label : String := "http://www.w3.org/1999/02/22-rdf-syntax-ns#label"

/-- `lexvo:iso639P3PCode` as expanded by the source's `PREFIX lexvo:
<https://www.iso.org/standard/39534.html>`. -/
def lexvo_code : String := "https://www.iso.org/standard/39534.htmliso639P3PCode"

def icu_languageRole : String := "http://lib.uchicago.edu/icu/languageRole"
def uchicago_language : String := "http://lib.uchicago.edu/language"

/-- `fn:collection` as expanded by `PREFIX fn:
<http://www.w3.org/2005/xpath-functions>`. -/
def fn_collection : String := "http://www.w3.org/2005/xpath-functionscollection"

def tgnURI (i : String) : String := "http://vocab.getty.edu/tgn/" ++ i

/-- Python `str.strip()` (trim surrounding whitespace). -/
def pyStrip (s : String) : String :=
  String.mk
    (((s.data.dropWhile Char.isWhitespace).reverse.dropWhile
        Char.isWhitespace).reverse)

/-- SPARQL `langMatches(lang(?label), "EN")`: the tag's primary subtag
is `en`, case-insensitively; the empty tag of a plain literal does not
match. -/
def langMatchesEN (l : String) : Bool :=
  let low := l.data.map Char.toLower
  low = ['e', 'n'] || List.isPrefixOf ['e', 'n', '-'] low

/-! ## Name resolution (`MLCGraph.get_tgn_place_names*`,
`MLCGraph.get_glottolog_language_names*`) -/

/-- `MLCGraph.get_tgn_place_names`: every `rdf:label` / `skos:altLabel`
/ `skos:prefLabel` value on the TGN node (a set). -/
def get_tgn_place_names (g : Graph) (i : String) : List String :=
  setOfList
    ((g.filter (fun t => t.s = tgnURI i &&
        (t.p = rdf_label || t.p = skos "altLabel" ||
          t.p = skos "prefLabel"))).map (fun t => t.o.val))

/-- `MLCGraph.get_tgn_place_names_en`: the same labels, restricted to
English language tags, stripped. -/
def get_tgn_place_names_en (g : Graph) (i : String) : List String :=
  setOfList
    ((g.filter (fun t => t.s = tgnURI i &&
        (t.p = rdf_label || t.p = skos "altLabel" ||
          t.p = skos "prefLabel") &&
        langMatchesEN t.o.lang)).map (fun t => pyStrip t.o.val))

/-- `MLCGraph.get_tgn_place_names_preferred`: English preferred label,
else any English label, else any label, else nothing. -/
def get_tgn_place_names_preferred (g : Graph) (i : String) : List String :=
  let results := setOfList
    ((g.filter (fun t => t.s = tgnURI i && t.p = skos "prefLabel" &&
        langMatchesEN t.o.lang)).map (fun t => pyStrip t.o.val))
  match results with
  | n :: _ => [n]
  | [] =>
    match get_tgn_place_names_en g i with
    | n :: _ => [n]
    | [] =>
      match get_tgn_place_names g i with
      | n :: _ => [n]
      | [] => []

/-- `MLCGraph.get_glottolog_language_names`: all `skos:altLabel` /
`skos:prefLabel` values of nodes carrying the ISO 639P3P code `c`. -/
def get_glottolog_language_names (g : Graph) (c : String) : List String :=
  setOfList
    ((g.filter (fun t =>
        (t.p = skos "altLabel" || t.p = skos "prefLabel") &&
        g.any (fun t2 => t2.s = t.s && t2.p = lexvo_code &&
          t2.o.val = c))).map (fun t => pyStrip t.o.val))

/-- `MLCGraph.get_glottolog_language_names_preferred`: the
`skos:prefLabel` values of nodes carrying the code `c`. -/
def get_glottolog_language_names_preferred (g : Graph) (c : String) :
    List String :=
  setOfList
    ((g.filter (fun t => t.p = skos "prefLabel" &&
        g.any (fun t2 => t2.s = t.s && t2.p = lexvo_code &&
          t2.o.val = c))).map (fun t => pyStrip t.o.val))

/-! ## Decade extraction and browse terms (`MLCGraph.get_browse_terms`) -/

/-- `re.search('([0-9]{4})', s)`: the first (leftmost) run of four
consecutive digits, as a number. -/
def firstFourDigits : List Char → Option Nat
  | [] => none
  | c1 :: rest =>
    match rest with
    | c2 :: c3 :: c4 :: _ =>
      if c1.isDigit && c2.isDigit && c3.isDigit && c4.isDigit then
        some (((c1.toNat - 48) * 1000 + (c2.toNat - 48) * 100 +
          (c3.toNat - 48) * 10 + (c4.toNat - 48)))
      else firstFourDigits rest
    | _ => none

/-- The years extracted from a date string: first four-digit run of each
`/`-separated segment. -/
def datesOf (dateStr : String) : List Nat :=
  (pySplit '/' dateStr).filterMap (fun seg => firstFourDigits seg.data)

/-- `str(year)[:3] + '0s'`: the decade label the source builds for one
year. -/
def decadeOfYear (y : Nat) : String :=
  String.mk ((toString y).data.take 3 ++ ['0', 's'])

/-- The decade labels the `while` loop emits for endpoints `d0 ≤ y ≤ d1`
(duplicates are later absorbed by the set-valued dictionary). -/
def decadeRange (d0 d1 : Nat) : List String :=
  (List.range (d1 + 1 - d0)).map (fun k => decadeOfYear (d0 + k))

/-- The year-list adjustment in the decade branch: a single year is
duplicated, more than two years are truncated to the first two. -/
def datesAdjusted (dateStr : String) : List Nat :=
  let dates := datesOf dateStr
  let dates := if dates.length = 1 then dates ++ dates else dates
  if dates.length > 2 then dates.take 2 else dates

/-- The decade labels computed for one date string in the `decade`
branch of `get_browse_terms`; `none` models the `IndexError` raised by
`dates[0]` when no segment contains a four-digit run. -/
def decadesOfDate (dateStr : String) : Option (List String) :=
  match datesAdjusted dateStr with
  | [] => none
  | [_] => none
  | d0 :: d1 :: _ => some (decadeRange d0 d1)

/-- A Python dictionary whose values are sets, in insertion order. -/
abbrev BrowseDict := List (String × List String)

/-- `browse_dict.setdefault(k, set()).add(v)`. -/
def dictAddSet : BrowseDict → String → String → BrowseDict
  | [], k, v => [(k, [v])]
  | (k', s) :: t, k, v =>
    if k' = k then (k', setAdd s v) :: t else (k', s) :: dictAddSet t k v

/-- The final `sorted(list(...))` pass over the dictionary values. -/
def sortDictVals (d : BrowseDict) : BrowseDict :=
  d.map (fun kv => (kv.1, sortLe pyStrLe kv.2))

/-- Result rows of the browse SPARQL queries: one `(object, subject)`
row per (predicate triple, `dcterms:hasPart` witness) pair, as SPARQL
join semantics produce. -/
def browseJoinRows (g : Graph) (p : String) : List (String × String) :=
  (g.map (fun t =>
    if t.p = p then
      (g.filter (fun t2 => t2.s = t.s && t2.p = dct "hasPart")).map
        (fun _ => (t.o.val, t.s))
    else [])).flatten

/-- The `decade` branch of `get_browse_terms`; `none` models the
`IndexError` escaping when some date has no extractable year. -/
def get_browse_terms_decade (g : Graph) : Option BrowseDict :=
  (browseJoinRows g (dct "date")).foldlM
    (fun d row =>
      (decadesOfDate row.1).map (fun decs =>
        decs.foldl (fun d2 dec => dictAddSet d2 dec row.2) d))
    []

/-- The `language` branch of `get_browse_terms`. -/
def get_browse_terms_language (g : Graph) : BrowseDict :=
  (browseJoinRows g (dc11 "language")).foldl
    (fun d row =>
      (get_glottolog_language_names_preferred g
          (regularize_string row.1)).foldl
        (fun d2 label =>
          let label := regularize_string label
          if label = "" then d2
          else dictAddSet d2 label (regularize_string row.2))
        d)
    []

/-- The `location` branch of `get_browse_terms`. -/
def get_browse_terms_location (g : Graph) : BrowseDict :=
  (browseJoinRows g (dct "spatial")).foldl
    (fun d row =>
      (pySplitWs row.1).foldl
        (fun d1 code =>
          (get_tgn_place_names_preferred g (regularize_string code)).foldl
            (fun d2 label =>
              let label := regularize_string label
              if label = "" then d2
              else dictAddSet d2 label (regularize_string row.2))
            d1)
        d)
    []

/-- The default branch of `get_browse_terms` (contributor, creator,
date): labels are split on newlines. -/
def get_browse_terms_plain (g : Graph) (p : String) : BrowseDict :=
  (browseJoinRows g p).foldl
    (fun d row =>
      (pySplit '\n' row.1).foldl
        (fun d2 label =>
          let label := regularize_string label
          if label = "" then d2
          else dictAddSet d2 label (regularize_string row.2))
        d)
    []

/-- The six browse types accepted by `get_browse_terms` (the `assert`
in the source). -/
inductive BrowseType where
  | contributor | creator | date | decade | language | location
  deriving DecidableEq, Repr

def BrowseType.name : BrowseType → String
  | .contributor => "contributor"
  | .creator => "creator"
  | .date => "date"
  | .decade => "decade"
  | .language => "language"
  | .location => "location"

/-- `MLCGraph.get_browse_terms`.  `none` models the `IndexError` of the
decade branch. -/
def get_browse_terms (g : Graph) : BrowseType → Option BrowseDict
  | .decade => (get_browse_terms_decade g).map sortDictVals
  | .language => some (sortDictVals (get_browse_terms_language g))
  | .location => some (sortDictVals (get_browse_terms_location g))
  | .contributor => some (sortDictVals (get_browse_terms_plain g (dct "contributor")))
  | .creator => some (sortDictVals (get_browse_terms_plain g (dct "creator")))
  | .date => some (sortDictVals (get_browse_terms_plain g (dct "date")))

/-! ## Entity extraction (`MLCGraph.get_item_info`,
`MLCGraph.get_series_info` and friends) -/

/-- The value set collected for one `(field, predicate)` pair:
whitespace-normalized object values, deduplicated, sorted. -/
def predValues (g : Graph) (s p : String) : List String :=
  sortLe pyStrLe
    (setOfList ((g.filter (fun t => t.s = s && t.p = p)).map
      (fun t => regularize_string t.o.val)))

/-- The TGN codes mentioned in the collected `location` values
(whitespace-separated, a set). -/
def tgnIdentifiersOf (locs : List String) : List String :=
  setOfList ((locs.map pySplitWs).flatten)

/-- Each collected location value is replaced by the preferred names of
the codes it mentions. -/
def resolvedLocations (g : Graph) (locs : List String) : List String :=
  ((tgnIdentifiersOf locs).map (fun i =>
    get_tgn_place_names_preferred g i)).flatten

/-- Language codes attached to `s` through a `uchicago:language` node
whose `icu:languageRole` is in `roles` (a set). -/
def languageCodes (g : Graph) (s : String) (roles : List String) :
    List String :=
  setOfList
    ((g.map (fun t =>
      if t.s = s && t.p = uchicago_language then
        (g.map (fun tr =>
          if tr.s = t.o.val && tr.p = icu_languageRole &&
              roles.contains tr.o.val then
            (g.filter (fun tc => tc.s = t.o.val && tc.p = lexvo_code)).map
              (fun tc => tc.o.val)
          else [])).flatten
      else [])).flatten)

/-- The deduplicated preferred names of a list of language codes. -/
def preferredNamesOf (g : Graph) (codes : List String) : List String :=
  setOfList ((codes.map (fun c =>
    get_glottolog_language_names_preferred g c)).flatten)

/-- One result row of the `hasFormat`/`isFormatOf` SPARQL queries. -/
structure FRow where
  fid : String
  medium : String
  dbid : String
  pan : Bool
  deriving DecidableEq, Repr

/-- The rows of the format queries: one per join of a `p` triple, a
`dcterms:medium` triple, a `dc:identifier` triple and an
`edm:aggregatedCHO` aggregation; `pan` is the bound
`EXISTS { ?format_agg edm:isShownBy ?_ }`. -/
def formatRows (g : Graph) (s p : String) : List FRow :=
  (g.map (fun tf =>
    if tf.s = s && tf.p = p then
      (g.map (fun tm =>
        if tm.s = tf.o.val && tm.p = dct "medium" then
          (g.map (fun td =>
            if td.s = tf.o.val && td.p = dc11 "identifier" then
              (g.filter (fun ta => ta.p = edm "aggregatedCHO" &&
                  ta.o.val = tf.o.val)).map (fun ta =>
                (⟨tf.o.val, tm.o.val, td.o.val,
                  g.any (fun ti => ti.s = ta.s && ti.p = edm "isShownBy")⟩ :
                  FRow))
            else [])).flatten
        else [])).flatten
    else [])).flatten

/-- `ORDER BY DESC(?has_panopto) ?format_dbid`. -/
def formatRowsSorted (g : Graph) (s p : String) : List FRow :=
  sortLe (fun a b => if a.pan = b.pan then pyStrLe a.dbid b.dbid else a.pan)
    (formatRows g s p)

/-- Append `v` to the list at key `k` (`data[p].setdefault(m, []).append`). -/
def dictAppend : List (String × List String) → String → String →
    List (String × List String)
  | [], k, v => [(k, [v])]
  | (k', l) :: t, k, v =>
    if k' = k then (k', l ++ [v]) :: t else (k', l) :: dictAppend t k v

/-- Group sorted format rows by medium, keeping row order inside each
medium group. -/
def groupFormats (rows : List FRow) : List (String × List String) :=
  rows.foldl (fun d r => dictAppend d r.medium r.fid) []

def panopto_prefix : String :=
  "https://uchicago.hosted.panopto.com/Panopto/Pages/Embed.aspx?id="

/-- Python `s.replace(pat, "")` for a non-empty pattern. -/
def removeAllList (pat : List Char) : List Char → List Char
  | [] => []
  | c :: t =>
    if pat ≠ [] && pat.isPrefixOf (c :: t) then
      removeAllList pat ((c :: t).drop pat.length)
    else c :: removeAllList pat t
termination_by l => l.length
decreasing_by
  · rename_i h
    simp only [List.length_drop, List.length_cons]
    have hpat : pat ≠ [] := by
      by_contra hc
      simp [hc] at h
    have : 1 ≤ pat.length := List.length_pos.mpr hpat
    omega
  · simp

def pyRemoveAll (pat s : String) : String :=
  String.mk (removeAllList pat.data s.data)

/-- The extracted record of one item (`MLCGraph.get_item_info`). -/
structure ItemInfo where
  content_type : List String
  linguistic_data_type : List String
  creator : List String
  description : List String
  identifier : List String
  medium : List String
  titles : List String
  alternative_title : List String
  contributor : List String
  date : List String
  is_part_of : List String
  location : List String
  discourse_type : List String
  primary_language : List String
  subject_language : List String
  has_format : List (String × List String)
  is_format_of : List (String × List String)
  panopto_links : List String
  panopto_identifiers : List String
  access_rights : List String
  ark : String
  deriving DecidableEq, Repr

/-- `MLCGraph.get_item_info`. -/
def get_item_info (g : Graph) (item_id : String) : ItemInfo :=
  let locs := predValues g item_id (dct "spatial")
  { content_type :=
      predValues g item_id "http://id.loc.gov/ontologies/bibframe/content"
    linguistic_data_type :=
      predValues g item_id "http://lib.uchicago.edu/dma/olacLinguisticDataType"
    creator := predValues g item_id (dct "creator")
    description := predValues g item_id (dc11 "description")
    identifier := predValues g item_id (dc11 "identifier")
    medium := predValues g item_id (dct "medium")
    titles := predValues g item_id (dc11 "title")
    alternative_title := predValues g item_id (dct "alternative")
    contributor := predValues g item_id (dct "contributor")
    date := predValues g item_id (dct "date")
    is_part_of := predValues g item_id (dct "isPartOf")
    location := resolvedLocations g locs
    discourse_type := predValues g item_id
      "http://www.language−archives.org/OLAC/metadata.htmldiscourseType"
    primary_language :=
      preferredNamesOf g (languageCodes g item_id ["Both", "Primary"])
    subject_language :=
      preferredNamesOf g (languageCodes g item_id ["Both", "Subject"])
    has_format := groupFormats (formatRowsSorted g item_id (dct "hasFormat"))
    is_format_of := groupFormats (formatRowsSorted g item_id (dct "isFormatOf"))
    panopto_links := setOfList
      ((g.map (fun ta =>
        if ta.p = edm "aggregatedCHO" && ta.o.val = item_id then
          (g.filter (fun ti => ti.s = ta.s && ti.p = edm "isShownBy")).map
            (fun ti => ti.o.val)
        else [])).flatten)
    panopto_identifiers := setOfList
      ((g.filter (fun t => t.s = item_id ++ "/file.wav" &&
          t.p = dct "identifier" &&
          t.o.val.data.take panopto_prefix.data.length
            = panopto_prefix.data)).map
        (fun t => pyRemoveAll panopto_prefix t.o.val))
    access_rights := setOfList
      ((g.map (fun t =>
        if t.s = item_id && t.p = dct "isPartOf" then
          (g.filter (fun t2 => t2.s = t.o.val &&
              t2.p = dct "accessRights")).map (fun t2 => t2.o.val)
        else [])).flatten)
    ark := item_id }

/-- The extracted record of one series (`MLCGraph.get_series_info`). -/
structure SeriesInfo where
  content_type : List String
  creator : List String
  description : List String
  identifier : List String
  titles : List String
  access_rights : List String
  alternative_title : List String
  contributor : List String
  date : List String
  location : List String
  primary_language : List String
  subject_language : List String
  ark : String
  deriving DecidableEq, Repr

/-- `MLCGraph.get_series_info`. -/
def get_series_info (g : Graph) (series_id : String) : SeriesInfo :=
  let locs := predValues g series_id (dct "spatial")
  { content_type :=
      predValues g series_id "http://id.loc.gov/ontologies/bibframe/content"
    creator := predValues g series_id (dct "creator")
    description := predValues g series_id (dc11 "description")
    identifier := predValues g series_id (dc11 "identifier")
    titles := predValues g series_id (dc11 "title")
    access_rights := predValues g series_id (dct "accessRights")
    alternative_title := predValues g series_id (dct "alternative")
    contributor := predValues g series_id (dct "contributor")
    date := predValues g series_id (dct "date")
    location := resolvedLocations g locs
    primary_language :=
      preferredNamesOf g (languageCodes g series_id ["Both", "Primary"])
    subject_language :=
      preferredNamesOf g (languageCodes g series_id ["Both", "Subject"])
    ark := series_id }

/-! ## Identifiers and search tokens -/

/-- `MLCGraph.get_item_identifiers`: objects of `dcterms:hasPart`,
sorted and deduplicated. -/
def get_item_identifiers (g : Graph) : List String :=
  sortLe pyStrLe
    (setOfList ((g.filter (fun t => t.p = dct "hasPart")).map
      (fun t => t.o.val)))

/-- `MLCGraph.get_series_identifiers`: subjects of `dcterms:hasPart`. -/
def get_series_identifiers (g : Graph) : List String :=
  sortLe pyStrLe
    (setOfList ((g.filter (fun t => t.p = dct "hasPart")).map
      (fun t => t.s)))

/-- `MLCGraph.get_series_identifiers_for_item`. -/
def get_series_identifiers_for_item (g : Graph) (i : String) : List String :=
  sortLe pyStrLe
    (setOfList ((g.filter (fun t => t.p = dct "hasPart" &&
        t.o.val = i)).map (fun t => t.s)))

/-- `MLCGraph.get_item_identifiers_for_series`. -/
def get_item_identifiers_for_series (g : Graph) (i : String) : List String :=
  sortLe pyStrLe
    (setOfList ((g.filter (fun t => t.s = i &&
        t.p = dct "hasPart")).map (fun t => t.o.val)))

/-- `MLCGraph.get_item_dbid`: the `dc:identifier` value (the loop
variable keeps the last row; `''` when there is none). -/
def get_item_dbid (g : Graph) (item_id : String) : String :=
  (((g.filter (fun t => t.s = item_id && t.p = dc11 "identifier")).map
    (fun t => t.o.val)).getLast?).getD ""

/-- `MLCGraph.get_item_has_panopto_link` (`'1'`/`'0'`). -/
def get_item_has_panopto_link (g : Graph) (item_id : String) : String :=
  if g.any (fun ta => ta.p = edm "aggregatedCHO" && ta.o.val = item_id &&
      g.any (fun ti => ti.s = ta.s && ti.p = edm "isShownBy")) then
    "1"
  else "0"

/-- `MLCGraph.get_item_medium`. -/
def get_item_medium (g : Graph) (item_id : String) : String :=
  (((g.filter (fun t => t.s = item_id && t.p = dct "medium")).map
    (fun t => t.o.val)).getLast?).getD ""

/-- `MLCGraph.get_series_dbid`: the first `dc:identifier` value, or
`''`. -/
def get_series_dbid (g : Graph) (i : String) : String :=
  (((g.filter (fun t => t.s = i && t.p = dc11 "identifier")).map
    (fun t => t.o.val)).head?).getD ""

/-- `MLCGraph.get_series_date`: all `/`-segments of all date values,
sorted as strings; empty, single, or `first/last`. -/
def get_series_date (g : Graph) (i : String) : String :=
  let years := ((g.filter (fun t => t.s = i && t.p = dct "date")).map
    (fun t => pySplit '/' t.o.val)).flatten
  match years with
  | [] => ""
  | [y] => y
  | _ =>
    let s := sortLe pyStrLe years
    match h : s with
    | [] => ""
    | y0 :: rest => y0 ++ "/" ++ (y0 :: rest).getLast (by simp)

/-- Digits-only string to `Nat` (`int(y)` on a digit string). -/
def natOfDigits (l : List Char) : Nat :=
  l.foldl (fun n c => n * 10 + (c.toNat - 48)) 0

/-- The year tokens contributed by one series-level date value:
`/`-segments that are exactly four digits, as numbers; a single year
stands alone, two or more are expanded to the full inclusive range. -/
def dateYearTokens (v : String) : List String :=
  let ys := (pySplit '/' v).filterMap (fun seg =>
    if seg.data.length = 4 && seg.data.all Char.isDigit then
      some (natOfDigits seg.data)
    else none)
  match ys with
  | [] => []
  | [y] => [toString y]
  | _ =>
    let s := sortLe (fun a b => decide (a ≤ b)) ys
    match s with
    | [] => []
    | y0 :: rest =>
      (List.range ((y0 :: rest).getLast (by simp) + 1 - y0)).map
        (fun k => toString (y0 + k))

/-- `MLCGraph.get_search_tokens_for_identifier`. -/
def get_search_tokens_for_identifier (g : Graph) (i : String) :
    List String :=
  let direct := ([dc11 "description", dc11 "title", dct "alternative",
    dct "creator", dct "contributor",
    "http://www.language−archives.org/OLAC/metadata.htmldiscourseType",
    "http://lib.uchicago.edu/dma/contentType"].map (fun p =>
      (g.filter (fun t => t.s = i && t.p = p)).map
        (fun t => t.o.val))).flatten
  let coll := (g.filter (fun t => t.s = i ++ "/aggregation" &&
      t.p = fn_collection)).filterMap (fun t =>
        if t.o.val = "dma" then some "Digital Media Archive" else none)
  let langs := ((g.filter (fun t => t.s = i && t.p = dc11 "language")).map
    (fun t => get_glottolog_language_names g t.o.val)).flatten
  let places := ((g.filter (fun t => t.s = i && t.p = dct "spatial")).map
    (fun t => ((pySplitWs t.o.val).map
      (fun c => get_tgn_place_names g c)).flatten)).flatten
  let years := sortLe pyStrLe
    (setOfList (((g.filter (fun t => t.s = i && t.p = dct "date")).map
      (fun t => dateYearTokens t.o.val)).flatten))
  direct ++ coll ++ langs ++ places ++ years

/-- The final whitespace-normalized join of the token list. -/
def joinTokens (tokens : List String) : String :=
  joinWith " " (tokens.map regularize_string)

/-- `MLCGraph.get_search_tokens_for_item_identifier`: the shared token
string, with item-level `dc:description` text appended when both are
non-empty. -/
def get_search_tokens_for_item_identifier (g : Graph) (i : String) :
    String :=
  let extra := (g.filter (fun t => t.s = i && t.p = dc11 "description")).map
    (fun t => t.o.val)
  let token_str := joinTokens (get_search_tokens_for_identifier g i)
  if token_str ≠ "" && extra ≠ [] then
    token_str ++ " " ++ joinWith " " (extra.map regularize_string)
  else token_str

/-- `MLCGraph.get_search_tokens_for_series_identifier`: like the item
variant, but the appended descriptions come from the series' items. -/
def get_search_tokens_for_series_identifier (g : Graph) (i : String) :
    String :=
  let extra := ((get_item_identifiers_for_series g i).map (fun iid =>
    (g.filter (fun t => t.s = iid && t.p = dc11 "description")).map
      (fun t => t.o.val))).flatten
  let token_str := joinTokens (get_search_tokens_for_identifier g i)
  if token_str ≠ "" && extra ≠ [] then
    token_str ++ " " ++ joinWith " " (extra.map regularize_string)
  else token_str

/-! ## The SQLite store (`MLCDB.build_db`) -/

/-- One row of the `browse` table. -/
structure BrowseRow where
  btype : String
  term : String
  id : String
  deriving DecidableEq, Repr

/-- One row of the `item` FTS table. -/
structure ItemRow where
  id : String
  dbid : String
  has_panopto_link : String
  info : ItemInfo
  medium : String
  text : String
  series_ids : String
  deriving DecidableEq, Repr

/-- One row of the `series` FTS table. -/
structure SeriesRow where
  id : String
  dbid : String
  date : String
  info : SeriesInfo
  text : String
  deriving DecidableEq, Repr

/-- The built store. -/
structure Store where
  browse : List BrowseRow
  item : List ItemRow
  series : List SeriesRow
  deriving DecidableEq, Repr

/-- The browse rows inserted for one browse type. -/
def browseRowsFor (g : Graph) (bt : BrowseType) : Option (List BrowseRow) :=
  (get_browse_terms g bt).map (fun d =>
    (d.map (fun kv => kv.2.map (fun i =>
      (⟨bt.name, kv.1, i⟩ : BrowseRow)))).flatten)

/-- All browse rows, in the load order of `build_db`. -/
def allBrowseRows (g : Graph) : Option (List BrowseRow) := do
  let a ← browseRowsFor g .contributor
  let b ← browseRowsFor g .creator
  let c ← browseRowsFor g .date
  let d ← browseRowsFor g .decade
  let e ← browseRowsFor g .language
  let f ← browseRowsFor g .location
  return a ++ b ++ c ++ d ++ e ++ f

/-- The `item` row inserted for one item identifier. -/
def itemRowFor (g : Graph) (i : String) : ItemRow :=
  { id := i
    dbid := get_item_dbid g i
    has_panopto_link := get_item_has_panopto_link g i
    info := get_item_info g i
    medium := get_item_medium g i
    text := get_search_tokens_for_item_identifier g i
    series_ids := joinWith "|" (get_series_identifiers_for_item g i) }

/-- The `series` row inserted for one series identifier. -/
def seriesRowFor (g : Graph) (i : String) : SeriesRow :=
  { id := i
    dbid := get_series_dbid g i
    date := get_series_date g i
    info := get_series_info g i
    text := get_search_tokens_for_series_identifier g i }

/-- The full row set produced by `build_db` on graph `g` (`none` when
the decade browse aborts). -/
def build_store (g : Graph) : Option Store :=
  (allBrowseRows g).map (fun br =>
    { browse := br
      item := (get_item_identifiers g).map (itemRowFor g)
      series := (get_series_identifiers g).map (seriesRowFor g) })

/-- The externally visible state of the store file at a given moment. -/
inductive StoreState where
  /-- No database file on disk. -/
  | absent
  /-- File created by `sqlite3.connect`, no tables yet. -/
  | noSchema
  /-- The first transaction (schema creation) committed, no rows. -/
  | schemaOnly
  /-- The second transaction (all inserts) committed. -/
  | populated (st : Store)
  deriving DecidableEq, Repr

/-- The successive externally visible (committed / file-level) states
during `MLCDB.build_db`, starting from the prior state: the prior store
is removed first (`os.remove`), `sqlite3.connect` creates an empty
file, the schema is committed on its own, and the row load is a second
transaction. -/
def build_db_states (prior : StoreState) (g : Graph) : List StoreState :=
  [prior, .absent, .noSchema, .schemaOnly] ++
    (match build_store g with
     | some st => [.populated st]
     | none => [])

/-! ## The query engine (`MLCDB.connect` and readers) -/

/-- Last-wins lookup in an association list (a Python `dict` built by
repeated assignment). -/
def dictGetLast {α : Type} (l : List (String × α)) (k : String) :
    Option α :=
  ((l.filter (fun kv => kv.1 = k)).getLast?).map (fun kv => kv.2)

/-- The in-memory caches loaded by `MLCDB.connect`. -/
structure ConnState where
  item_info : List (String × ItemInfo)
  series_info : List (String × SeriesInfo)
  deriving Repr

/-- `MLCDB.connect` (value level: `json.loads` of the stored record). -/
def connect (st : Store) : ConnState :=
  { item_info := st.item.map (fun r => (r.id, r.info))
    series_info := st.series.map (fun r => (r.id, r.info)) }

/-- `MLCDB.get_item` without format resolution, at value level (the
deep copy is the identity on values; aliasing is treated in the heap
model below).  `none` models the `KeyError` on a missing identifier. -/
def MLCDB_get_item (cs : ConnState) (identifier : String) :
    Option ItemInfo :=
  dictGetLast cs.item_info identifier

/-- `MLCDB.get_series_info` at value level. -/
def MLCDB_get_series_info (cs : ConnState) (series_id : String) :
    Option SeriesInfo :=
  dictGetLast cs.series_info series_id

/-- SQLite `LIKE` lowercasing: ASCII-only case folding. -/
def sqliteLower (c : Char) : Char :=
  if 'A' ≤ c && c ≤ 'Z' then Char.ofNat (c.toNat + 32) else c

/-- SQLite `LIKE` pattern matching (`%` any run, `_` any character,
ASCII-case-insensitive literals). -/
def likeMatch : List Char → List Char → Bool
  | [], [] => true
  | [], _ :: _ => false
  | '%' :: p, t =>
    likeMatch p t ||
      (match t with
       | [] => false
       | _ :: t' => likeMatch ('%' :: p) t')
  | '_' :: p, t =>
    (match t with
     | [] => false
     | _ :: t' => likeMatch p t')
  | a :: p, t =>
    (match t with
     | [] => false
     | c :: t' => (sqliteLower a = sqliteLower c) && likeMatch p t')
termination_by p t => p.length + t.length
decreasing_by all_goals simp_arith [*]

/-- `MLCDB.get_items_for_series`: `select id from item where series_ids
like '%' || identifier || '%'`. -/
def get_items_for_series (st : Store) (identifier : String) :
    List String :=
  (st.item.filter (fun r =>
    likeMatch ('%' :: (identifier.data ++ ['%'])) r.series_ids.data)).map
    (fun r => r.id)

/-! ## Search (`MLCDB.get_search`) -/

/-- The `sort_type` allow-list of `get_search` (`'date'`, `'rank'`,
`'series.id'`). -/
inductive SortType where
  | date | rank | sid
  deriving DecidableEq, Repr

/-- The SQLite FTS5 engine primitives, abstract: the `match` predicate
and the `rank` value of a row, plus the `\p{L}\p{N}` character class
used by query normalization. -/
structure Fts where
  isLN : Char → Bool
  ftsMatch : String → String → Bool
  rank : String → String → Int

/-- Split at the first occurrence of `sep` (`re.match('^([^:]*):(.*)$',
facet)`; `none` when `sep` does not occur, where the source raises
`AttributeError`). -/
def splitFirst (sep : Char) : List Char → Option (List Char × List Char)
  | [] => none
  | c :: t =>
    if c = sep then some ([], t)
    else (splitFirst sep t).map (fun pr => (c :: pr.1, pr.2))

/-- Parse one facet string `type:term`. -/
def parseFacet (f : String) : Option (String × String) :=
  (splitFirst ':' f.data).map (fun pr => (String.mk pr.1, String.mk pr.2))

/-- One facet subquery: `select id from browse where type=? and
term=?`. -/
def browseSel (st : Store) (ft fterm : String) : List String :=
  (st.browse.filter (fun r => r.btype = ft && r.term = fterm)).map
    (fun r => r.id)

/-- `id in (sq1 intersect sq2 intersect ...)`. -/
def facetOK (st : Store) (facets : List (String × String)) (id : String) :
    Bool :=
  facets.all (fun f => (browseSel st f.1 f.2).contains id)

/-- The series rows selected by the series-level query (all four SQL
branches share this filter shape). -/
def seriesSelected (st : Store) (fts : Fts) (q : String)
    (facets : List (String × String)) : List SeriesRow :=
  st.series.filter (fun r =>
    (q = "" || fts.ftsMatch q r.text) &&
      (facets.isEmpty || facetOK st facets r.id))

/-- The item rows selected by the item-level query. -/
def itemsSelected (st : Store) (fts : Fts) (q : String)
    (facets : List (String × String)) : List ItemRow :=
  st.item.filter (fun r =>
    (q = "" || fts.ftsMatch q r.text) &&
      (facets.isEmpty || facetOK st facets r.id))

/-- `order by {sort_type}` of the series query (`order by id` in the
branches without a text query). -/
def orderSeries (fts : Fts) (q : String) (sort : SortType)
    (rows : List SeriesRow) : List SeriesRow :=
  if q ≠ "" then
    match sort with
    | .rank =>
      sortLe (fun a b => decide (fts.rank q a.text ≤ fts.rank q b.text)) rows
    | .date => sortLe (fun a b => pyStrLe a.date b.date) rows
    | .sid => sortLe (fun a b => pyStrLe a.id b.id) rows
  else sortLe (fun a b => pyStrLe a.id b.id) rows

/-- `cast(dbid as unsigned)`: numeric value of the leading digit run. -/
def castUnsigned (s : String) : Nat :=
  natOfDigits (s.data.takeWhile Char.isDigit)

/-- `order by cast(dbid as unsigned)` of the item query. -/
def orderItems (rows : List ItemRow) : List ItemRow :=
  sortLe (fun a b => decide (castUnsigned a.dbid ≤ castUnsigned b.dbid)) rows

/-- One entry of the `get_search` result: series identifier, item
identifiers with hits, rank. -/
structure SEntry where
  id : String
  items : List String
  rank : Int
  deriving DecidableEq, Repr

/-- `d[k] = v` on a Python dict. -/
def pyDictSet : List (String × Nat) → String → Nat → List (String × Nat)
  | [], k, v => [(k, v)]
  | (k', v') :: t, k, v =>
    if k' = k then (k, v) :: t else (k', v') :: pyDictSet t k v

/-- `d[k]` on a Python dict (`None` when absent). -/
def pyDictGet (d : List (String × Nat)) (k : String) : Option Nat :=
  (d.find? (fun kv => kv.1 = k)).map (fun kv => kv.2)

/-- The `series_lookup` dict: position of each series result, keyed by
the `'|'`-split pieces of its identifier column. -/
def buildSeriesLookup (entries : List SEntry) : List (String × Nat) :=
  entries.enum.foldl
    (fun d se => (pySplit '|' se.2.id).foldl
      (fun d2 sid => pyDictSet d2 sid se.1) d)
    []

/-- The merge loop: append each item hit to every series entry its
owning-series list points at. -/
def addItems (entries : List SEntry) (lookup : List (String × Nat))
    (ires : List (String × List String)) : List SEntry :=
  ires.foldl
    (fun acc it =>
      it.2.foldl
        (fun acc2 sid =>
          match pyDictGet lookup sid with
          | some ix =>
            List.modify (fun e => { e with items := e.items ++ [it.1] }) ix acc2
          | none => acc2)
        acc)
    entries

/-- `MLCDB.get_search`.  `none` models the `AttributeError` raised when
a facet string contains no colon. -/
def get_search (st : Store) (fts : Fts) (query : String)
    (facets : List String) (sort : SortType) : Option (List SEntry) := do
  let q := if query ≠ "" then convert_raw_query_to_fts fts.isLN query
           else query
  let pf ← facets.mapM parseFacet
  let sres := (orderSeries fts q sort (seriesSelected st fts q pf)).map
    (fun r => (⟨r.id, [], if q ≠ "" then fts.rank q r.text else 0⟩ : SEntry))
  let ires := (orderItems (itemsSelected st fts q pf)).map
    (fun r => (r.id, pySplit '|' r.series_ids))
  return addItems sres (buildSeriesLookup sres) ires

/-! ## Heap model of the record cache (`MLCDB.get_item` /
`MLCDB.get_series_info` aliasing behaviour)

Python records decoded by `json.loads` are dicts, lists and strings on
a heap; `copy.deepcopy` rebuilds the structure at fresh addresses,
while returning a cached object directly shares its addresses with the
cache.  Mutation is modelled as overwriting one heap cell. -/

/-- A Python value: an immutable leaf, or a reference to a heap
object. -/
inductive PyVal where
  | prim (s : String)
  | ref (a : Nat)
  deriving DecidableEq, Repr

/-- A mutable Python heap object (dict or list). -/
inductive PyObj where
  | dict (fields : List (String × PyVal))
  | arr (elems : List PyVal)
  deriving DecidableEq, Repr

/-- The heap: object at address `a` is entry `a` of the list. -/
abbrev Heap := List PyObj

/-- The pure denotation of a record, for comparing what reads
observe. -/
inductive PyTree where
  | prim (s : String)
  | dict (fields : List (String × PyTree))
  | arr (elems : List PyTree)
  | dangling

/-- Resolve a value to its pure denotation (fuelled; `dangling` for
broken references or exhausted fuel). -/
def readVal : Nat → Heap → PyVal → PyTree
  | _, _, .prim s => .prim s
  | 0, _, .ref _ => .dangling
  | f + 1, h, .ref a =>
    match h.get? a with
    | none => .dangling
    | some (.dict fs) => .dict (fs.map (fun kv => (kv.1, readVal f h kv.2)))
    | some (.arr es) => .arr (es.map (fun e => readVal f h e))

/-- Read with enough fuel for the whole heap. -/
def readRec (h : Heap) (v : PyVal) : PyTree := readVal (h.length + 1) h v

mutual

/-- Allocate a fresh copy of a pure tree on the heap. -/
def writeTree : Heap → PyTree → Heap × PyVal
  | h, .prim s => (h, .prim s)
  | h, .dangling => (h, .prim "")
  | h, .dict fs =>
    let r := writeFields h fs
    (r.1 ++ [.dict r.2], .ref r.1.length)
  | h, .arr es =>
    let r := writeElems h es
    (r.1 ++ [.arr r.2], .ref r.1.length)

def writeFields : Heap → List (String × PyTree) → Heap × List (String × PyVal)
  | h, [] => (h, [])
  | h, (k, t) :: r =>
    let p := writeTree h t
    let q := writeFields p.1 r
    (q.1, (k, p.2) :: q.2)

def writeElems : Heap → List PyTree → Heap × List PyVal
  | h, [] => (h, [])
  | h, t :: r =>
    let p := writeTree h t
    let q := writeElems p.1 r
    (q.1, p.2 :: q.2)

end

/-- `copy.deepcopy`: rebuild the record reachable from `v` at fresh
addresses (`json.loads` output is tree-shaped, on which this coincides
with Python's `deepcopy`). -/
def deepcopy (h : Heap) (v : PyVal) : Heap × PyVal :=
  writeTree h (readRec h v)

/-- The in-memory caches with their backing heap. -/
structure HState where
  heap : Heap
  item_info : List (String × PyVal)
  series_info : List (String × PyVal)
  deriving Repr

/-- `MLCDB.get_series_info` at heap level: returns the cached object
itself (`return self._series_info[series_id]`, no copy). -/
def hGetSeriesInfo (st : HState) (k : String) : Option PyVal :=
  dictGetLast st.series_info k

/-- `MLCDB.get_item` at heap level, without format resolution:
`copy.deepcopy(self._item_info[identifier])`. -/
def hGetItem (st : HState) (k : String) : Option (PyVal × HState) :=
  (dictGetLast st.item_info k).map (fun root =>
    let r := deepcopy st.heap root
    (r.2, { st with heap := r.1 }))

/-- Substitute each identifier in one medium list with the cached
record it names (`info[p][m][i] = self._item_info[url]`). -/
def substArr (st : HState) (h : Heap) (c : Nat) : Option Heap :=
  match h.get? c with
  | some (.arr elems) => do
    let elems' ← elems.mapM (fun e =>
      match e with
      | .prim url => dictGetLast st.item_info url
      | _ => none)
    return h.set c (.arr elems')
  | _ => none

/-- Walk the medium dictionary of one format field. -/
def substMediums (st : HState) (h : Heap) (b : Nat) : Option Heap :=
  match h.get? b with
  | some (.dict ms) =>
    ms.foldlM (fun h2 kv =>
      match kv.2 with
      | .ref c => substArr st h2 c
      | _ => none) h
  | _ => none

/-- Handle one of `has_format` / `is_format_of` (`if p in info`). -/
def substFormatsKey (st : HState) (h : Heap)
    (fs : List (String × PyVal)) (p : String) : Option Heap :=
  match fs.find? (fun kv => kv.1 = p) with
  | none => some h
  | some kv =>
    match kv.2 with
    | .ref b => substMediums st h b
    | _ => none

/-- `MLCDB.get_item` at heap level with `get_format_relationships=True`:
after the deep copy, the related-item identifiers inside the copy are
replaced by the *cached* records themselves. -/
def hGetItemFmt (st : HState) (k : String) : Option (PyVal × HState) := do
  let root ← dictGetLast st.item_info k
  let r := deepcopy st.heap root
  match r.2 with
  | .ref a =>
    match r.1.get? a with
    | some (.dict fs) => do
      let h2 ← substFormatsKey st r.1 fs "has_format"
      let h3 ← substFormatsKey st h2 fs "is_format_of"
      return (.ref a, { st with heap := h3 })
    | _ => none
  | _ => none

/-- Overwrite one heap cell (a Python in-place mutation of the dict or
list living there). -/
def mutate (h : Heap) (a : Nat) (o : PyObj) : Heap := h.set a o

/-- Addresses stored directly in a value. -/
def valRefs : PyVal → List Nat
  | .prim _ => []
  | .ref a => [a]

/-- Addresses stored directly in an object. -/
def objRefs : PyObj → List Nat
  | .dict fs => (fs.map (fun kv => valRefs kv.2)).flatten
  | .arr es => (es.map valRefs).flatten

/-- Addresses reachable from a value (fuelled). -/
def reachableF : Nat → Heap → PyVal → List Nat
  | _, _, .prim _ => []
  | 0, _, .ref a => [a]
  | f + 1, h, .ref a =>
    a :: (match h.get? a with
      | none => []
      | some (.dict fs) => (fs.map (fun kv => reachableF f h kv.2)).flatten
      | some (.arr es) => (es.map (fun e => reachableF f h e)).flatten)

/-- Addresses reachable from a value, with enough fuel for the whole
heap. -/
def reachable (h : Heap) (v : PyVal) : List Nat :=
  reachableF (h.length + 1) h v

/-- Every object stored below `n` references only addresses below
`n`. -/
def ClosedBelow (n : Nat) (h : Heap) : Prop :=
  ∀ i, i < n → ∀ o, h.get? i = some o → ∀ a ∈ objRefs o, a < n

/-- Every object stored at `n` or above references only addresses at
`n` or above. -/
def HighClosed (n : Nat) (h : Heap) : Prop :=
  ∀ i, n ≤ i → ∀ o, h.get? i = some o → ∀ a ∈ objRefs o, n ≤ a

/-! ## Decimal digits of `toString` -/

/-- The decimal digit characters of a natural number. -/
def natDigits (n : Nat) : List Char :=
  if h : n < 10 then [Nat.digitChar n]
  else natDigits (n / 10) ++ [Nat.digitChar (n % 10)]
termination_by n
decreasing_by
  exact Nat.div_lt_self (by omega) (by omega)


/-! ## Specification-side definitions and concrete test fixtures -/

/-- The decade labels touched by the inclusive year range `[y1, y2]`,
written from the spec's words: every bucket `floor(y/10)*10`, labelled
`str(y // 10) + "0s"`. -/
def specDecadeLabels (y1 y2 : Nat) : List String :=
  (List.range (y2 / 10 + 1 - y1 / 10)).map (fun k => toString (y1 / 10 + k) ++ "0s")

/-- A graph with one series whose date has no four-digit run. -/
def gNoYear : Graph :=
  [⟨"https://ex.org/ser1", dct "hasPart", ⟨"https://ex.org/item1", ""⟩⟩,
   ⟨"https://ex.org/ser1", dct "date", ⟨"n.d.", ""⟩⟩]

/-- ASCII-lowercased characters (SQLite `LIKE` case folding). -/
def asciiLower (s : String) : List Char := s.data.map sqliteLower

/-- Case-insensitive substring containment: the spec-side reading of
`series_ids LIKE '%' || S || '%'` for a wildcard-free `S`. -/
def infixCI (needle hay : String) : Prop :=
  asciiLower needle <:+: asciiLower hay

instance (n h : String) : Decidable (infixCI n h) := by
  unfold infixCI; infer_instance

/-- A store with two series whose identifiers are in a
substring relation, and one item owned only by the longer one. -/
def cexStore : Store :=
  { browse := []
    item := [{ id := "https://ex.org/item1", dbid := "1",
               has_panopto_link := "0",
               info := get_item_info [] "https://ex.org/item1",
               medium := "", text := "",
               series_ids := "https://ex.org/ser12" }]
    series := [{ id := "https://ex.org/ser1", dbid := "1", date := "",
                 info := get_series_info [] "https://ex.org/ser1",
                 text := "" },
               { id := "https://ex.org/ser12", dbid := "2", date := "",
                 info := get_series_info [] "https://ex.org/ser12",
                 text := "" }] }

/-- Is `p` one of the three TGN label predicates the source queries? -/
def isTgnLabel (p : String) : Prop :=
  p = rdf_label ∨ p = skos "altLabel" ∨ p = skos "prefLabel"

instance (p : String) : Decidable (isTgnLabel p) := by
  unfold isTgnLabel; infer_instance

/-- A TGN graph with one French-tagged preferred label and no English
label of any kind. -/
def gTGN : Graph :=
  [⟨tgnURI "700", skos "prefLabel", ⟨"Gwatemala", "fr"⟩⟩]

/-- A two-triple graph: one series owning one item, with a
contributor. -/
def gW : Graph :=
  [⟨"https://ex.org/ser1", dct "hasPart", ⟨"https://ex.org/item1", ""⟩⟩,
   ⟨"https://ex.org/ser1", dct "contributor", ⟨"Alice", ""⟩⟩]

/-- A graph whose item has a `dc:identifier` different from its URI. -/
def gC2 : Graph :=
  [⟨"https://ex.org/ser1", dct "hasPart", ⟨"https://ex.org/item1", ""⟩⟩,
   ⟨"https://ex.org/item1", dc11 "identifier", ⟨"1234", ""⟩⟩]

/-- The effective FTS query of `get_search`: the raw query after
normalization, or the empty string when no query was given. -/
def effectiveQuery (fts : Fts) (query : String) : String :=
  if query ≠ "" then convert_raw_query_to_fts fts.isLN query else query

/-- A trivial FTS engine in which every row matches every query with
rank 0 (enough to exercise the merge logic of `get_search`). -/
def ftsAll : Fts :=
  { isLN := fun _ => false, ftsMatch := fun _ _ => true,
    rank := fun _ _ => 0 }

/-- A one-record series cache whose cached record lives at heap
address 0. -/
def hsState : HState :=
  { heap := [.dict [("title", .prim "old")]]
    item_info := []
    series_info := [("S", .ref 0)] }

/-- An item cache holding a record `J` (address 0) and a record `I`
(address 3) whose `has_format` medium list names `J`. -/
def hfState : HState :=
  { heap := [.dict [("x", .prim "jold")],
             .dict [("m", .ref 2)],
             .arr [.prim "J"],
             .dict [("has_format", .ref 1)]]
    item_info := [("J", .ref 0), ("I", .ref 3)]
    series_info := [] }

/-- The heap after `hGetItemFmt hfState "I"`: the deep copy occupies
addresses 4-6, but its medium list (address 4) points back at the
cached record at address 0. -/
def hfAfter : Heap :=
  [.dict [("x", .prim "jold")], .dict [("m", .ref 2)], .arr [.prim "J"],
   .dict [("has_format", .ref 1)], .arr [.ref 0], .dict [("m", .ref 4)],
   .dict [("has_format", .ref 5)]]

/-- A one-item cache used to exercise the plain `get_item` deep copy. -/
def wC6 : HState :=
  { heap := [.dict [("t", .prim "x")]]
    item_info := [("I", .ref 0)]
    series_info := [] }

/-!
# Theorems

Everything below is a lemma or a claim theorem about the definitions
above.
-/

/-! ### Lemmas: query normalization -/

theorem charWords_nil (sep : Char → Bool) : charWords sep [] = [] := rfl

theorem charWords_cons_sep (sep : Char → Bool) (c : Char) (t : List Char)
    (hc : sep c = true) : charWords sep (c :: t) = charWords sep t := by
  show charWordsAux sep [] (c :: t) = charWordsAux sep [] t
  simp [charWordsAux, hc]

theorem charWordsAux_word (sep : Char → Bool) :
    ∀ (t cur : List Char), cur ≠ [] →
      charWordsAux sep cur t =
        (cur.reverse ++ t.takeWhile (fun d => !sep d)) ::
          charWords sep (t.dropWhile (fun d => !sep d)) := by
  intro t
  induction t with
  | nil =>
    intro cur hcur
    simp [charWordsAux, hcur, charWords]
  | cons c t ih =>
    intro cur hcur
    by_cases hc : sep c = true
    · have htw : (c :: t).takeWhile (fun d => !sep d) = [] := by
        simp [List.takeWhile_cons, hc]
      have hdw : (c :: t).dropWhile (fun d => !sep d) = c :: t := by
        simp [List.dropWhile_cons, hc]
      rw [htw, hdw, List.append_nil]
      show charWordsAux sep cur (c :: t) = _
      simp only [charWordsAux, hc, if_true, hcur, if_false]
      congr 1
      show _ = charWordsAux sep [] (c :: t)
      simp [charWordsAux, hc]
    · simp only [Bool.not_eq_true] at hc
      have htw : (c :: t).takeWhile (fun d => !sep d) =
          c :: t.takeWhile (fun d => !sep d) := by
        simp [List.takeWhile_cons, hc]
      have hdw : (c :: t).dropWhile (fun d => !sep d) =
          t.dropWhile (fun d => !sep d) := by
        simp [List.dropWhile_cons, hc]
      rw [htw, hdw]
      have hstep : charWordsAux sep cur (c :: t) =
          charWordsAux sep (c :: cur) t := by
        simp only [charWordsAux, hc, Bool.false_eq_true, if_false]
      rw [hstep, ih (c :: cur) (by simp)]
      simp

theorem charWords_cons_word (sep : Char → Bool) (c : Char) (t : List Char)
    (hc : sep c = false) :
    charWords sep (c :: t) =
      (c :: t.takeWhile (fun d => !sep d)) ::
        charWords sep (t.dropWhile (fun d => !sep d)) := by
  show charWordsAux sep [] (c :: t) = _
  simp only [charWordsAux, hc, Bool.false_eq_true, if_false]
  rw [charWordsAux_word sep t [c] (by simp)]
  simp

theorem subRunsGo_charWords (isLN : Char → Bool) (t : List Char) :
    charWords Char.isWhitespace (subRunsGo isLN t) =
      charWords Char.isWhitespace (subRuns isLN t) := by
  induction t with
  | nil => rfl
  | cons c t ih =>
    by_cases hc : isLN c = true
    · simp [subRuns, subRunsGo, hc]
    · simp only [Bool.not_eq_true] at hc
      simp only [subRuns, subRunsGo, hc, Bool.false_eq_true, if_false]
      rw [charWords_cons_sep _ _ _ (by decide), ih]

theorem takeWhile_subRuns (isLN : Char → Bool)
    (h2 : ∀ c, isLN c = true → c.isWhitespace = false) (t : List Char) :
    (subRuns isLN t).takeWhile (fun d => !d.isWhitespace) =
      t.takeWhile isLN := by
  induction t with
  | nil => rfl
  | cons c t ih =>
    by_cases hc : isLN c = true
    · simp [subRuns, hc, List.takeWhile_cons, h2 c hc, ih]
    · simp only [Bool.not_eq_true] at hc
      simp [subRuns, hc, List.takeWhile_cons]

theorem dropWhile_subRuns (isLN : Char → Bool)
    (h2 : ∀ c, isLN c = true → c.isWhitespace = false) (t : List Char) :
    (subRuns isLN t).dropWhile (fun d => !d.isWhitespace) =
      subRuns isLN (t.dropWhile isLN) := by
  induction t with
  | nil => rfl
  | cons c t ih =>
    by_cases hc : isLN c = true
    · simp [subRuns, hc, List.dropWhile_cons, h2 c hc, ih]
    · simp only [Bool.not_eq_true] at hc
      simp [subRuns, hc, List.dropWhile_cons]

theorem charWords_subRuns (isLN : Char → Bool)
    (h2 : ∀ c, isLN c = true → c.isWhitespace = false) :
    ∀ (n : Nat) (t : List Char), t.length ≤ n →
      charWords Char.isWhitespace (subRuns isLN t) =
        charWords (fun c => !isLN c) t := by
  intro n
  induction n with
  | zero =>
    intro t ht
    have : t = [] := List.eq_nil_of_length_eq_zero (Nat.le_zero.mp ht)
    subst this; simp [subRuns, charWords_nil]
  | succ n ih =>
    intro t ht
    match t with
    | [] => simp [subRuns, charWords_nil]
    | c :: t' =>
      by_cases hc : isLN c = true
      · have hw : c.isWhitespace = false := h2 c hc
        simp only [subRuns, hc, if_true]
        rw [charWords_cons_word _ _ _ hw,
            charWords_cons_word _ _ _ (by simp [hc]),
            takeWhile_subRuns isLN h2, dropWhile_subRuns isLN h2]
        have htw : t'.takeWhile (fun d => !(!isLN d)) = t'.takeWhile isLN := by
          congr 1; funext d; simp
        have hdw : t'.dropWhile (fun d => !(!isLN d)) = t'.dropWhile isLN := by
          congr 1; funext d; simp
        rw [htw, hdw]
        congr 1
        exact ih (t'.dropWhile isLN)
          (le_trans (List.dropWhile_sublist _).length_le
            (Nat.le_of_succ_le_succ ht))
      · simp only [Bool.not_eq_true] at hc
        simp only [subRuns, hc, Bool.false_eq_true, if_false]
        rw [charWords_cons_sep _ _ _ (by decide), subRunsGo_charWords,
            charWords_cons_sep _ _ _ (by simp [hc])]
        exact ih t' (Nat.le_of_succ_le_succ ht)

theorem charWords_mem (sep : Char → Bool) :
    ∀ (n : Nat) (t : List Char), t.length ≤ n →
      ∀ w ∈ charWords sep t, w ≠ [] ∧ ∀ c ∈ w, sep c = false := by
  intro n
  induction n with
  | zero =>
    intro t ht
    have : t = [] := List.eq_nil_of_length_eq_zero (Nat.le_zero.mp ht)
    subst this; simp [charWords_nil]
  | succ n ih =>
    intro t ht w hw
    match t with
    | [] => simp [charWords_nil] at hw
    | c :: t' =>
      by_cases hc : sep c = true
      · rw [charWords_cons_sep _ _ _ hc] at hw
        exact ih t' (Nat.le_of_succ_le_succ ht) w hw
      · simp only [Bool.not_eq_true] at hc
        rw [charWords_cons_word _ _ _ hc] at hw
        rcases List.mem_cons.mp hw with h | h
        · subst h
          refine ⟨by simp, ?_⟩
          intro d hd
          rcases List.mem_cons.mp hd with h | h
          · subst h; exact hc
          · have := List.mem_takeWhile_imp h
            simpa using this
        · exact ih (t'.dropWhile (fun d => !sep d))
            (le_trans (List.dropWhile_sublist _).length_le
              (Nat.le_of_succ_le_succ ht)) w h

theorem splitSepList_ne_nil (sep : Char) (l : List Char) :
    splitSepList sep l ≠ [] := by
  induction l with
  | nil => simp [splitSepList]
  | cons c t ih =>
    by_cases hc : c = sep
    · simp [splitSepList, hc]
    · simp only [splitSepList, hc, if_false]
      cases h : splitSepList sep t with
      | nil => simp
      | cons a r => simp

theorem splitSepList_append (sep : Char) (a : List Char) (ha : sep ∉ a)
    (l : List Char) (h : List Char) (r : List (List Char))
    (hl : splitSepList sep l = h :: r) :
    splitSepList sep (a ++ l) = (a ++ h) :: r := by
  induction a with
  | nil => simpa using hl
  | cons c a ih =>
    have hc : ¬(c = sep) := fun hcc => ha (hcc ▸ List.mem_cons_self c a)
    have ha' : sep ∉ a := fun hm => ha (List.mem_cons_of_mem c hm)
    simp only [List.cons_append, splitSepList, hc, if_false]
    simp only [List.append_eq]
    rw [ih ha']

theorem splitSepList_no_sep (sep : Char) (a : List Char) (ha : sep ∉ a) :
    splitSepList sep a = [a] := by
  have := splitSepList_append sep a ha [] [] [] rfl
  simpa using this

theorem pySplit_join (ws : List String) (hne : ws ≠ [])
    (hsp : ∀ w ∈ ws, ' ' ∉ w.data) :
    pySplit ' ' (joinWith " " ws) = ws := by
  induction ws with
  | nil => exact absurd rfl hne
  | cons w ws ih =>
    cases ws with
    | nil =>
      have hw : ' ' ∉ w.data := hsp w (List.mem_cons_self _ _)
      simp only [joinWith, pySplit]
      rw [splitSepList_no_sep _ _ hw]
      simp
    | cons w2 t =>
      have hw : ' ' ∉ w.data := hsp w (List.mem_cons_self _ _)
      have hrest : pySplit ' ' (joinWith " " (w2 :: t)) = w2 :: t :=
        ih (by simp) (fun x hx => hsp x (List.mem_cons_of_mem _ hx))
      simp only [joinWith, pySplit] at hrest ⊢
      have hdata : (w ++ " " ++ joinWith " " (w2 :: t)).data =
          w.data ++ (' ' :: (joinWith " " (w2 :: t)).data) := by
        simp [String.data_append]
      rw [hdata]
      have hsplit : splitSepList ' ' (' ' :: (joinWith " " (w2 :: t)).data) =
          [] :: splitSepList ' ' (joinWith " " (w2 :: t)).data := by
        simp [splitSepList]
      rw [splitSepList_append ' ' w.data hw _ _ _ hsplit]
      simp only [List.append_nil, List.map_cons]
      have hmk : String.mk w.data = w := by cases w; rfl
      rw [hmk]
      congr 1

theorem convert_unfold (isLN : Char → Bool) (q : String) :
    convert_raw_query_to_fts isLN q =
      joinWith " AND "
        ((pySplit ' '
          (if q ≠ "" then
            joinWith " " (pySplitWs (String.mk (subRuns isLN (q.take 256).data)))
          else q)).take 32) := rfl

theorem pySplitWs_mk (X : List Char) :
    pySplitWs (String.mk X) = (charWords Char.isWhitespace X).map String.mk := rfl

theorem convert_eq_specNormalize (isLN : Char → Bool)
    (h2 : ∀ c, isLN c = true → c.isWhitespace = false) (q : String) :
    convert_raw_query_to_fts isLN q = specNormalizeQuery isLN q := by
  by_cases hq : q = ""
  · subst hq
    rw [convert_unfold, if_neg (by simp)]
    have h0 : ("" : String).take 256 = "" := rfl
    simp [pySplit, splitSepList, specNormalizeQuery, h0, charWords_nil,
      joinWith]
  · have hws : charWords Char.isWhitespace (subRuns isLN (q.take 256).data) =
        charWords (fun c => !isLN c) (q.take 256).data :=
      charWords_subRuns isLN h2 (q.take 256).data.length _ le_rfl
    rw [convert_unfold, if_pos hq, pySplitWs_mk, hws]
    cases hcw : charWords (fun c => !isLN c) (q.take 256).data with
    | nil =>
      simp only [specNormalizeQuery]
      rw [hcw]
      simp [joinWith, pySplit, splitSepList]
    | cons w ws =>
      have hmem := charWords_mem (fun c => !isLN c)
        (q.take 256).data.length (q.take 256).data le_rfl
      rw [pySplit_join]
      · simp only [specNormalizeQuery]
        rw [hcw]
      · simp
      · intro x hx
        rcases List.mem_map.mp hx with ⟨cl, hcl, hx'⟩
        have := (hmem cl (hcw ▸ hcl)).2
        intro hsp
        have hln : isLN ' ' = true := by
          have := this ' ' (by simpa [← hx'] using hsp)
          simpa using this
        have := h2 ' ' hln
        simp [Char.isWhitespace] at this


theorem natDigits_small (n : Nat) (h : n < 10) :
    natDigits n = [Nat.digitChar n] := by
  rw [natDigits]; simp [h]

theorem natDigits_step (n : Nat) (h : 10 ≤ n) :
    natDigits n = natDigits (n / 10) ++ [Nat.digitChar (n % 10)] := by
  rw [natDigits]; simp [Nat.not_lt_of_le h]

theorem toDigitsCore_eq_natDigits :
    ∀ (f n : Nat) (l : List Char), n < f →
      Nat.toDigitsCore 10 f n l = natDigits n ++ l := by
  intro f
  induction f with
  | zero => intro n l h; omega
  | succ f ih =>
    intro n l h
    by_cases hn : n < 10
    · have h10 : n / 10 = 0 := Nat.div_eq_of_lt hn
      have hm : n % 10 = n := Nat.mod_eq_of_lt hn
      simp [Nat.toDigitsCore, h10, natDigits_small n hn, hm]
    · push_neg at hn
      have h10 : ¬(n / 10 = 0) := by
        intro hc
        have := Nat.div_eq_of_lt (show n < 10 by omega)
        omega
      have hlt : n / 10 < f := by
        have h1 : n / 10 < n := Nat.div_lt_self (by omega) (by omega)
        omega
      simp only [Nat.toDigitsCore, h10, if_false]
      rw [ih (n / 10) _ hlt, natDigits_step n hn, List.append_assoc]
      rfl

theorem repr_eq_natDigits (n : Nat) : toString n = String.mk (natDigits n) := by
  show Nat.repr n = _
  unfold Nat.repr Nat.toDigits
  rw [toDigitsCore_eq_natDigits (n + 1) n [] (Nat.lt_succ_self n)]
  simp [List.asString]

theorem natDigits_len3 (n : Nat) (h1 : 100 ≤ n) (h2 : n ≤ 999) :
    (natDigits n).length = 3 := by
  rw [natDigits_step n (by omega), natDigits_step (n / 10) (by omega),
    natDigits_small (n / 10 / 10) (by omega)]
  simp

/-- For a four-digit year, `str(year)[:3] + '0s'` is exactly the
`⌊y/10⌋`-decade label `str(y // 10) + '0s'`. -/
theorem decadeOfYear_eq (y : Nat) (h1 : 1000 ≤ y) (h2 : y ≤ 9999) :
    decadeOfYear y = toString (y / 10) ++ "0s" := by
  rw [decadeOfYear, repr_eq_natDigits y, repr_eq_natDigits (y / 10)]
  rw [natDigits_step y (by omega)]
  show String.mk _ = _
  rw [List.take_append_of_le_length
    (by rw [natDigits_len3 (y / 10) (by omega) (by omega)])]
  rw [List.take_of_length_le (by rw [natDigits_len3 (y / 10) (by omega) (by omega)])]
  rfl

/-! ### Decade bucket correspondence -/

theorem decadeRange_mem_iff (y1 y2 : Nat) (h12 : y1 ≤ y2)
    (h1 : 1000 ≤ y1) (h2 : y2 ≤ 9999) (s : String) :
    s ∈ decadeRange y1 y2 ↔ s ∈ specDecadeLabels y1 y2 := by
  constructor
  · intro hs
    rcases List.mem_map.mp hs with ⟨k, hk, hsk⟩
    rcases List.mem_range.mp hk with hklt
    set y := y1 + k with hy
    have hy1 : y1 ≤ y := by omega
    have hy2 : y ≤ y2 := by omega
    rw [decadeOfYear_eq y (by omega) (by omega)] at hsk
    refine List.mem_map.mpr ⟨y / 10 - y1 / 10, ?_, ?_⟩
    · refine List.mem_range.mpr ?_
      have := Nat.div_le_div_right (c := 10) hy2
      have := Nat.div_le_div_right (c := 10) hy1
      omega
    · have := Nat.div_le_div_right (c := 10) hy1
      rw [show y1 / 10 + (y / 10 - y1 / 10) = y / 10 by omega]
      exact hsk
  · intro hs
    rcases List.mem_map.mp hs with ⟨j, hj, hsj⟩
    rcases List.mem_range.mp hj with hjlt
    by_cases hj0 : j = 0
    · subst hj0
      refine List.mem_map.mpr ⟨0, List.mem_range.mpr (by omega), ?_⟩
      rw [decadeOfYear_eq (y1 + 0) (by omega) (by omega)]
      simpa using hsj
    · set y := (y1 / 10 + j) * 10 with hy
      have hylb : y1 < y := by omega
      have hyub : y ≤ y2 := by
        have : y1 / 10 + j ≤ y2 / 10 := by omega
        have h3 : (y1 / 10 + j) * 10 ≤ (y2 / 10) * 10 :=
          Nat.mul_le_mul_right 10 this
        omega
      refine List.mem_map.mpr ⟨y - y1, List.mem_range.mpr (by omega), ?_⟩
      rw [show y1 + (y - y1) = y by omega]
      rw [decadeOfYear_eq y (by omega) (by omega)]
      rw [show y / 10 = y1 / 10 + j by omega]
      exact hsj

/-- C3.  For an identifier whose date segments yield years
`y1 ≤ y2`, decade extraction places it exactly in the touched decade
buckets — *provided every extracted year has four significant digits*
(`1000 ≤ y1`; the claim fails for years below 1000, see the
counterexample).  The conjuncts also record the `"1933/1955"` instance
and that a single-year date occupies exactly one decade. -/
theorem claim_C3_decade_buckets (ds : String) (y1 y2 : Nat) (rest : List Nat)
    (hadj : datesAdjusted ds = y1 :: y2 :: rest)
    (h12 : y1 ≤ y2) (h1 : 1000 ≤ y1) (h2 : y2 ≤ 9999) :
    (∃ l, decadesOfDate ds = some l ∧
      (∀ s, s ∈ l ↔ s ∈ specDecadeLabels y1 y2)) ∧
    ((decadesOfDate "1933/1955").map setOfList =
      some ["1930s", "1940s", "1950s"]) ∧
    (∀ y, 1000 ≤ y → y ≤ 9999 →
      setOfList (decadeRange y y) = [toString (y / 10) ++ "0s"]) := by
  refine ⟨⟨decadeRange y1 y2, ?_, decadeRange_mem_iff y1 y2 h12 h1 h2⟩, ?_, ?_⟩
  · rw [decadesOfDate, hadj]
  · decide
  · intro y hy1 hy2
    have : decadeRange y y = [decadeOfYear y] := by
      simp [decadeRange, show y + 1 - y = 1 by omega, List.range_succ]
    rw [this, decadeOfYear_eq y hy1 hy2]
    simp [setOfList, setAdd]

/-- C3, counterexample: the date `"0999"` yields the single year
999 ≤ 999, whose touched decade bucket is the 990s, but the code
files the identifier under `"9990s"` — the claim as stated fails for
years with fewer than four significant digits. -/
theorem claim_C3_counterexample :
    datesAdjusted "0999" = [999, 999] ∧
    decadesOfDate "0999" = some ["9990s"] ∧
    specDecadeLabels 999 999 = ["990s"] ∧
    ¬ (∀ s, s ∈ (["9990s"] : List String) ↔ s ∈ (["990s"] : List String)) := by
  refine ⟨by decide, by decide, by decide, ?_⟩
  intro h
  have := (h "9990s").mp (by simp)
  simp at this

/-- C3, witness: the amended theorem applied at the concrete date
`"1933/1955"`. -/
theorem claim_C3_witness :
    datesAdjusted "1933/1955" = [1933, 1955] ∧
    (∃ l, decadesOfDate "1933/1955" = some l ∧
      (∀ s, s ∈ l ↔ s ∈ specDecadeLabels 1933 1955)) := by
  have hadj : datesAdjusted "1933/1955" = [1933, 1955] := by decide
  exact ⟨hadj,
    (claim_C3_decade_buckets "1933/1955" 1933 1955 [] hadj (by omega)
      (by omega) (by omega)).1⟩

/-! ### Decade extraction aborts on year-free dates -/

/-- C9.  The claim says decade extraction never aborts; in fact a date
string with no four-digit run in any segment (here `"n.d."` on a
series) makes `get_browse_terms('decade')` raise `IndexError`
(`dates[0]` on an empty list), modelled by `none`. -/
theorem claim_C9_decade_browse_aborts :
    decadesOfDate "n.d." = none ∧
    get_browse_terms gNoYear BrowseType.decade = none := by
  exact ⟨by decide, by decide⟩

/-! ### `LIKE '%S%'` and substring membership -/

theorem likeMatch_pct_all (t : List Char) : likeMatch ['%'] t = true := by
  induction t with
  | nil => rw [likeMatch]; simp [likeMatch]
  | cons c t ih => rw [likeMatch]; simp [ih]

theorem likeMatch_lit (s : List Char) (hs : ∀ c ∈ s, c ≠ '%' ∧ c ≠ '_') :
    ∀ t : List Char,
      (likeMatch (s ++ ['%']) t = true ↔
        s.map sqliteLower <+: t.map sqliteLower) := by
  induction s with
  | nil => intro t; simp [likeMatch_pct_all]
  | cons a s ih =>
    intro t
    have ha := hs a (List.mem_cons_self a s)
    have hs' : ∀ c ∈ s, c ≠ '%' ∧ c ≠ '_' := fun c hc =>
      hs c (List.mem_cons_of_mem a hc)
    cases t with
    | nil =>
      rw [List.cons_append, likeMatch]
      · constructor
        · intro h; simp at h
        · intro h; simp at h
      · simpa using ha.1
      · simpa using ha.2
    | cons c t' =>
      rw [List.cons_append, likeMatch]
      · simp only [Bool.and_eq_true, decide_eq_true_eq, List.map_cons,
          List.cons_prefix_cons, ih hs' t']
      · simpa using ha.1
      · simpa using ha.2

theorem likeMatch_pct (p : List Char) :
    ∀ t : List Char,
      (likeMatch ('%' :: p) t = true ↔
        ∃ t', t' <:+ t ∧ likeMatch p t' = true) := by
  intro t
  induction t with
  | nil =>
    rw [likeMatch]
    simp only [Bool.or_eq_true]
    constructor
    · intro h
      rcases h with h | h
      · exact ⟨[], List.nil_suffix, h⟩
      · simp at h
    · rintro ⟨t', ht', hm⟩
      rw [List.suffix_nil.mp ht'] at hm
      exact Or.inl hm
  | cons c t2 ih =>
    rw [likeMatch]
    simp only [Bool.or_eq_true]
    constructor
    · intro h
      rcases h with h | h
      · exact ⟨c :: t2, List.suffix_refl _, h⟩
      · rcases ih.mp h with ⟨t', ht', hm⟩
        exact ⟨t', ht'.trans (List.suffix_cons c t2), hm⟩
    · rintro ⟨t', ht', hm⟩
      rcases List.suffix_cons_iff.mp ht' with h | h
      · subst h; exact Or.inl hm
      · exact Or.inr (ih.mpr ⟨t', h, hm⟩)

theorem likeMatch_pat_iff (s t : List Char)
    (hs : ∀ c ∈ s, c ≠ '%' ∧ c ≠ '_') :
    likeMatch ('%' :: (s ++ ['%'])) t = true ↔
      s.map sqliteLower <:+: t.map sqliteLower := by
  rw [likeMatch_pct (s ++ ['%']) t]
  constructor
  · rintro ⟨t', ht', hm⟩
    have hp := (likeMatch_lit s hs t').mp hm
    exact List.infix_iff_prefix_suffix.mpr
      ⟨t'.map sqliteLower, hp, List.IsSuffix.map _ ht'⟩
  · intro h
    rcases List.infix_iff_prefix_suffix.mp h with ⟨m, hpre, hsuf⟩
    rcases List.suffix_iff_eq_drop.mp hsuf with hdrop
    refine ⟨t.drop (t.length - m.length), ?_, ?_⟩
    · exact List.drop_suffix _ _
    · refine (likeMatch_lit s hs _).mpr ?_
      rw [List.map_drop]
      rw [← List.length_map t sqliteLower]
      rw [← hdrop]
      exact hpre

theorem splitSepList_head_prefix (sep : Char) :
    ∀ (l h : List Char) (r : List (List Char)),
      splitSepList sep l = h :: r → h <+: l := by
  intro l
  induction l with
  | nil =>
    intro h r heq
    simp [splitSepList] at heq
    simp [heq.1]
  | cons c t ih =>
    intro h r heq
    by_cases hc : c = sep
    · simp [splitSepList, hc] at heq
      rw [heq.1]
      exact List.nil_prefix
    · simp only [splitSepList, hc, if_false] at heq
      cases hsp : splitSepList sep t with
      | nil => rw [hsp] at heq; simp at heq; simp [← heq.1]
      | cons h0 r0 =>
        rw [hsp] at heq
        simp only [List.cons.injEq] at heq
        rw [← heq.1]
        exact List.cons_prefix_cons.mpr ⟨rfl, ih h0 r0 hsp⟩

theorem mem_splitSepList_infix (sep : Char) :
    ∀ (l x : List Char), x ∈ splitSepList sep l → x <:+: l := by
  intro l
  induction l with
  | nil =>
    intro x hx
    simp [splitSepList] at hx
    simp [hx]
  | cons c t ih =>
    intro x hx
    by_cases hc : c = sep
    · simp only [splitSepList, hc, if_true, List.mem_cons] at hx
      rcases hx with h | h
      · simp [h]
      · exact List.infix_cons (ih x h)
    · simp only [splitSepList, hc, if_false] at hx
      cases hsp : splitSepList sep t with
      | nil =>
        rw [hsp] at hx; simp at hx
        rw [hx]
        exact (List.cons_prefix_cons.mpr ⟨rfl, List.nil_prefix⟩).isInfix
      | cons h0 r0 =>
        rw [hsp] at hx
        rcases List.mem_cons.mp hx with h | h
        · subst h
          have : h0 <+: t := splitSepList_head_prefix sep t h0 r0 hsp
          exact (List.cons_prefix_cons.mpr ⟨rfl, this⟩).isInfix
        · exact List.infix_cons (ih x (hsp ▸ List.mem_cons_of_mem h0 h))

/-- C5 (amended).  For a wildcard-free series identifier `S`,
`get_items_for_series` returns exactly the items whose `series_ids`
column contains `S` as an ASCII-case-insensitive substring; in
particular it returns *every* item whose owning-series set contains
`S`, but (see the counterexample) possibly more. -/
theorem claim_C5_items_for_series (st : Store) (S : String)
    (hS : ∀ c ∈ S.data, c ≠ '%' ∧ c ≠ '_') :
    get_items_for_series st S =
      (st.item.filter (fun r => decide (infixCI S r.series_ids))).map
        ItemRow.id ∧
    ∀ r ∈ st.item, S ∈ pySplit '|' r.series_ids →
      r.id ∈ get_items_for_series st S := by
  have hpt : ∀ y : String,
      likeMatch ('%' :: (S.data ++ ['%'])) y.data = decide (infixCI S y) := by
    intro y
    cases hb : likeMatch ('%' :: (S.data ++ ['%'])) y.data
    · symm
      rw [decide_eq_false_iff_not]
      intro hP
      have := (likeMatch_pat_iff S.data y.data hS).mpr hP
      rw [hb] at this
      cases this
    · symm
      rw [decide_eq_true_eq]
      exact (likeMatch_pat_iff S.data y.data hS).mp hb
  constructor
  · unfold get_items_for_series
    congr 1
    exact List.filter_congr (fun r _ => hpt r.series_ids)
  · intro r hr hmem
    rcases List.mem_map.mp hmem with ⟨x, hx, hxS⟩
    have hinf : x <:+: r.series_ids.data :=
      mem_splitSepList_infix '|' r.series_ids.data x hx
    have hinfS : S.data <:+: r.series_ids.data := by
      have : S.data = x := by rw [← hxS]
      rw [this]; exact hinf
    have hlow : S.data.map sqliteLower <:+: r.series_ids.data.map sqliteLower :=
      List.IsInfix.map _ hinfS
    have hlm : likeMatch ('%' :: (S.data ++ ['%'])) r.series_ids.data = true :=
      (likeMatch_pat_iff S.data r.series_ids.data hS).mpr hlow
    unfold get_items_for_series
    exact List.mem_map.mpr ⟨r, List.mem_filter.mpr ⟨hr, hlm⟩, rfl⟩

/-- C5, counterexample: the claim as stated fails — with series
`…/ser1` and `…/ser12` both present, the item owned only by `…/ser12`
is returned for `get_items_for_series("…/ser1")` because the lookup is
a substring `LIKE`, although `…/ser1` is not in its owning-series
set. -/
theorem claim_C5_counterexample :
    get_items_for_series cexStore "https://ex.org/ser1" =
      ["https://ex.org/item1"] ∧
    cexStore.item.map ItemRow.series_ids = ["https://ex.org/ser12"] ∧
    pySplit '|' "https://ex.org/ser12" = ["https://ex.org/ser12"] ∧
    "https://ex.org/ser1" ∉ (["https://ex.org/ser12"] : List String) ∧
    cexStore.series.map SeriesRow.id =
      ["https://ex.org/ser1", "https://ex.org/ser12"] := by
  refine ⟨?_, by decide, by decide, by decide, by decide⟩
  simp [get_items_for_series, cexStore, likeMatch, sqliteLower]

/-- C5, witness: the amended theorem at the concrete store, for the
series identifier `…/ser12`, whose owned item is indeed returned. -/
theorem claim_C5_witness :
    (∀ c ∈ ("https://ex.org/ser12" : String).data, c ≠ '%' ∧ c ≠ '_') ∧
    "https://ex.org/item1" ∈ get_items_for_series cexStore
      "https://ex.org/ser12" := by
  have hS : ∀ c ∈ ("https://ex.org/ser12" : String).data,
      c ≠ '%' ∧ c ≠ '_' := by decide
  refine ⟨hS, ?_⟩
  have := (claim_C5_items_for_series cexStore "https://ex.org/ser12" hS).2
  refine this (cexStore.item.head (by simp [cexStore])) ?_ ?_
  · simp [cexStore]
  · decide

/-! ### Set-list and filter helpers -/

theorem mem_setAdd {α : Type} [DecidableEq α] (l : List α) (a x : α) :
    x ∈ setAdd l a ↔ x ∈ l ∨ x = a := by
  unfold setAdd
  by_cases h : a ∈ l
  · simp only [h, if_true]
    constructor
    · exact Or.inl
    · rintro (hx | hx)
      · exact hx
      · exact hx ▸ h
  · simp [h]

theorem mem_foldl_setAdd {α : Type} [DecidableEq α] :
    ∀ (l acc : List α) (x : α),
      x ∈ l.foldl setAdd acc ↔ x ∈ acc ∨ x ∈ l := by
  intro l
  induction l with
  | nil => intro acc x; simp
  | cons a t ih =>
    intro acc x
    simp only [List.foldl_cons, ih, mem_setAdd, List.mem_cons]
    tauto

theorem mem_setOfList {α : Type} [DecidableEq α] (l : List α) (x : α) :
    x ∈ setOfList l ↔ x ∈ l := by
  unfold setOfList
  rw [mem_foldl_setAdd]
  simp

theorem setOfList_eq_nil {α : Type} [DecidableEq α] (l : List α) :
    setOfList l = [] ↔ l = [] := by
  constructor
  · intro h
    cases l with
    | nil => rfl
    | cons a t =>
      have : a ∈ setOfList (a :: t) :=
        (mem_setOfList _ a).mpr (List.mem_cons_self a t)
      rw [h] at this
      cases this
  · intro h; subst h; rfl

theorem setQuery_eq_nil (g : Graph) (p : Triple → Bool) (f : Triple → String) :
    setOfList ((g.filter p).map f) = [] ↔ ¬ ∃ t ∈ g, p t = true := by
  rw [setOfList_eq_nil, List.map_eq_nil_iff, List.filter_eq_nil_iff]
  simp

theorem setQuery_head (g : Graph) (p : Triple → Bool) (f : Triple → String)
    (n : String) (l : List String)
    (h : setOfList ((g.filter p).map f) = n :: l) :
    ∃ t ∈ g, p t = true ∧ n = f t := by
  have : n ∈ setOfList ((g.filter p).map f) := by rw [h]; simp
  rw [mem_setOfList] at this
  rcases List.mem_map.mp this with ⟨t, ht, hnt⟩
  rcases List.mem_filter.mp ht with ⟨htg, htp⟩
  exact ⟨t, htg, htp, hnt.symm⟩

/-- C8.  Preferred place-name resolution returns at most one name, with
priority (1) English-tagged `skos:prefLabel`, (2) any English-tagged
label, (3) any label; a code with labels but none in tier 1 or 2 falls
through to the later tiers, and a code with no labels at all yields
`[]`, never an error. -/
theorem claim_C8_place_name_priority (g : Graph) (i : String) :
    (get_tgn_place_names_preferred g i).length ≤ 1 ∧
    ((∃ t ∈ g, t.s = tgnURI i ∧ t.p = skos "prefLabel" ∧
        langMatchesEN t.o.lang = true) →
      ∃ t ∈ g, t.s = tgnURI i ∧ t.p = skos "prefLabel" ∧
        langMatchesEN t.o.lang = true ∧
        get_tgn_place_names_preferred g i = [pyStrip t.o.val]) ∧
    ((¬ ∃ t ∈ g, t.s = tgnURI i ∧ t.p = skos "prefLabel" ∧
        langMatchesEN t.o.lang = true) →
      (∃ t ∈ g, t.s = tgnURI i ∧ isTgnLabel t.p ∧
        langMatchesEN t.o.lang = true) →
      ∃ t ∈ g, t.s = tgnURI i ∧ isTgnLabel t.p ∧
        langMatchesEN t.o.lang = true ∧
        get_tgn_place_names_preferred g i = [pyStrip t.o.val]) ∧
    ((¬ ∃ t ∈ g, t.s = tgnURI i ∧ isTgnLabel t.p ∧
        langMatchesEN t.o.lang = true) →
      (∃ t ∈ g, t.s = tgnURI i ∧ isTgnLabel t.p) →
      ∃ t ∈ g, t.s = tgnURI i ∧ isTgnLabel t.p ∧
        get_tgn_place_names_preferred g i = [t.o.val]) ∧
    ((¬ ∃ t ∈ g, t.s = tgnURI i ∧ isTgnLabel t.p) →
      get_tgn_place_names_preferred g i = []) := by
  have hiff1 : ∀ t : Triple,
      ((t.s = tgnURI i && t.p = skos "prefLabel" &&
        langMatchesEN t.o.lang) = true) ↔
      (t.s = tgnURI i ∧ t.p = skos "prefLabel" ∧
        langMatchesEN t.o.lang = true) := by
    intro t; simp [Bool.and_eq_true, and_assoc]
  have hiff2 : ∀ t : Triple,
      ((t.s = tgnURI i &&
        (t.p = rdf_label || t.p = skos "altLabel" ||
          t.p = skos "prefLabel") &&
        langMatchesEN t.o.lang) = true) ↔
      (t.s = tgnURI i ∧ isTgnLabel t.p ∧ langMatchesEN t.o.lang = true) := by
    intro t
    simp [Bool.and_eq_true, Bool.or_eq_true, isTgnLabel, and_assoc,
      or_assoc]
  have hiff3 : ∀ t : Triple,
      ((t.s = tgnURI i &&
        (t.p = rdf_label || t.p = skos "altLabel" ||
          t.p = skos "prefLabel")) = true) ↔
      (t.s = tgnURI i ∧ isTgnLabel t.p) := by
    intro t
    simp [Bool.and_eq_true, Bool.or_eq_true, isTgnLabel, or_assoc]
  -- name the three tiers
  rcases h1 : setOfList ((g.filter (fun t => t.s = tgnURI i &&
      t.p = skos "prefLabel" && langMatchesEN t.o.lang)).map
      (fun t => pyStrip t.o.val)) with _ | ⟨n1, l1⟩
  · -- no English preferred label
    have hno1 : ¬ ∃ t ∈ g, t.s = tgnURI i ∧ t.p = skos "prefLabel" ∧
        langMatchesEN t.o.lang = true := by
      have := (setQuery_eq_nil g _ (fun t => pyStrip t.o.val)).mp h1
      intro ⟨t, htg, ht⟩
      exact this ⟨t, htg, (hiff1 t).mpr ht⟩
    rcases h2 : get_tgn_place_names_en g i with _ | ⟨n2, l2⟩
    · -- no English label at all
      have hno2 : ¬ ∃ t ∈ g, t.s = tgnURI i ∧ isTgnLabel t.p ∧
          langMatchesEN t.o.lang = true := by
        have := (setQuery_eq_nil g _ (fun t => pyStrip t.o.val)).mp h2
        intro ⟨t, htg, ht⟩
        exact this ⟨t, htg, (hiff2 t).mpr ht⟩
      rcases h3 : get_tgn_place_names g i with _ | ⟨n3, l3⟩
      · -- no label of any kind
        have hval : get_tgn_place_names_preferred g i = [] := by
          unfold get_tgn_place_names_preferred
          rw [h1, h2, h3]
        refine ⟨by simp [hval], ?_, ?_, ?_, ?_⟩
        · intro h; exact absurd h hno1
        · intro h1' h2'; exact absurd h2' hno2
        · intro h1' h2'
          exfalso
          rcases h2' with ⟨t, htg, ht⟩
          have := (setQuery_eq_nil g _ (fun t => t.o.val)).mp h3
          exact this ⟨t, htg, (hiff3 t).mpr ht⟩
        · intro _; exact hval
      · -- some label exists: tier 3
        have hval : get_tgn_place_names_preferred g i = [n3] := by
          unfold get_tgn_place_names_preferred
          rw [h1, h2, h3]
        rcases setQuery_head g _ (fun t => t.o.val) n3 l3 h3 with
          ⟨t, htg, htp, hn⟩
        refine ⟨by simp [hval], ?_, ?_, ?_, ?_⟩
        · intro h; exact absurd h hno1
        · intro h1' h2'; exact absurd h2' hno2
        · intro _ _
          exact ⟨t, htg, ((hiff3 t).mp htp).1, ((hiff3 t).mp htp).2,
            by rw [hval, hn]⟩
        · intro h
          exfalso
          exact h ⟨t, htg, ((hiff3 t).mp htp).1, ((hiff3 t).mp htp).2⟩
    · -- an English-tagged label exists: tier 2
      have hval : get_tgn_place_names_preferred g i = [n2] := by
        unfold get_tgn_place_names_preferred
        rw [h1, h2]
      rcases setQuery_head g _ (fun t => pyStrip t.o.val) n2 l2 h2 with
        ⟨t, htg, htp, hn⟩
      have hprops := (hiff2 t).mp htp
      refine ⟨by simp [hval], ?_, ?_, ?_, ?_⟩
      · intro h; exact absurd h hno1
      · intro _ _
        exact ⟨t, htg, hprops.1, hprops.2.1, hprops.2.2, by rw [hval, hn]⟩
      · intro hno' _
        exfalso
        exact hno' ⟨t, htg, hprops.1, hprops.2.1, hprops.2.2⟩
      · intro h
        exfalso
        exact h ⟨t, htg, hprops.1, hprops.2.1⟩
  · -- an English preferred label exists: tier 1
    have hval : get_tgn_place_names_preferred g i = [n1] := by
      unfold get_tgn_place_names_preferred
      rw [h1]
    rcases setQuery_head g _ (fun t => pyStrip t.o.val) n1 l1 h1 with
      ⟨t, htg, htp, hn⟩
    have hprops := (hiff1 t).mp htp
    have hlab : isTgnLabel t.p := Or.inr (Or.inr hprops.2.1)
    refine ⟨by simp [hval], ?_, ?_, ?_, ?_⟩
    · intro _
      exact ⟨t, htg, hprops.1, hprops.2.1, hprops.2.2, by rw [hval, hn]⟩
    · intro h _
      exfalso
      exact h ⟨t, htg, hprops.1, hprops.2.1, hprops.2.2⟩
    · intro hno' _
      exfalso
      exact hno' ⟨t, htg, hprops.1, hlab, hprops.2.2⟩
    · intro h
      exfalso
      exact h ⟨t, htg, hprops.1, hlab⟩

/-- C8, witness: on a graph whose only label is a French-tagged
preferred label, resolution falls through to the any-label tier and
returns that label; concretely the result is `["Gwatemala"]`. -/
theorem claim_C8_witness :
    (¬ ∃ t ∈ gTGN, t.s = tgnURI "700" ∧ isTgnLabel t.p ∧
      langMatchesEN t.o.lang = true) ∧
    (∃ t ∈ gTGN, t.s = tgnURI "700" ∧ isTgnLabel t.p) ∧
    (∃ t ∈ gTGN, t.s = tgnURI "700" ∧ isTgnLabel t.p ∧
      get_tgn_place_names_preferred gTGN "700" = [t.o.val]) ∧
    get_tgn_place_names_preferred gTGN "700" = ["Gwatemala"] := by
  have hno : ¬ ∃ t ∈ gTGN, t.s = tgnURI "700" ∧ isTgnLabel t.p ∧
      langMatchesEN t.o.lang = true := by decide
  have hsome : ∃ t ∈ gTGN, t.s = tgnURI "700" ∧ isTgnLabel t.p := by decide
  have h := (claim_C8_place_name_priority gTGN "700").2.2.2.1 hno hsome
  refine ⟨hno, hsome, h, ?_⟩
  rcases h with ⟨t, htg, _, _, hval⟩
  have ht : t = ⟨tgnURI "700", skos "prefLabel", ⟨"Gwatemala", "fr"⟩⟩ := by
    simpa [gTGN] using htg
  rw [hval, ht]

/-! ### Sorting and dictionary membership -/

theorem insertLe_perm {α : Type} (le : α → α → Bool) (a : α) :
    ∀ l : List α, (insertLe le a l).Perm (a :: l) := by
  intro l
  induction l with
  | nil => simp [insertLe]
  | cons b t ih =>
    unfold insertLe
    by_cases h : le a b
    · simp [h]
    · simp only [h, Bool.false_eq_true, if_false]
      exact (ih.cons b).trans (List.Perm.swap a b t)

theorem sortLe_perm {α : Type} (le : α → α → Bool) :
    ∀ l : List α, (sortLe le l).Perm l := by
  intro l
  induction l with
  | nil => simp [sortLe]
  | cons a t ih =>
    unfold sortLe
    exact (insertLe_perm le a (sortLe le t)).trans (ih.cons a)

theorem mem_sortLe {α : Type} (le : α → α → Bool) (l : List α) (x : α) :
    x ∈ sortLe le l ↔ x ∈ l :=
  (sortLe_perm le l).mem_iff

/-- Membership of an identifier in some value set of a browse
dictionary. -/
def MemDict (d : BrowseDict) (x : String) : Prop :=
  ∃ kv ∈ d, x ∈ kv.2

theorem memDict_dictAddSet (d : BrowseDict) (k v x : String)
    (h : MemDict (dictAddSet d k v) x) : MemDict d x ∨ x = v := by
  induction d with
  | nil =>
    rcases h with ⟨kv, hkv, hx⟩
    simp [dictAddSet] at hkv
    subst hkv
    simp at hx
    exact Or.inr hx
  | cons a t ih =>
    rcases h with ⟨kv, hkv, hx⟩
    unfold dictAddSet at hkv
    by_cases hak : a.1 = k
    · simp only [hak, if_true] at hkv
      rcases List.mem_cons.mp hkv with h' | h'
      · subst h'
        rcases (mem_setAdd a.2 v x).mp hx with h'' | h''
        · exact Or.inl ⟨(a.1, a.2), by simp, h''⟩
        · exact Or.inr h''
      · exact Or.inl ⟨kv, List.mem_cons_of_mem _ h', hx⟩
    · simp only [hak, if_false] at hkv
      rcases List.mem_cons.mp hkv with h' | h'
      · exact Or.inl ⟨kv, h' ▸ List.mem_cons_self _ _, hx⟩
      · rcases ih ⟨kv, h', hx⟩ with h'' | h''
        · rcases h'' with ⟨kv', hkv', hx'⟩
          exact Or.inl ⟨kv', List.mem_cons_of_mem _ hkv', hx'⟩
        · exact Or.inr h''

theorem memDict_foldl {β : Type} (step : BrowseDict → β → BrowseDict)
    (P : β → String → Prop)
    (hstep : ∀ d b x, MemDict (step d b) x → MemDict d x ∨ P b x) :
    ∀ (rows : List β) (d0 : BrowseDict) (x : String),
      MemDict (rows.foldl step d0) x →
        MemDict d0 x ∨ ∃ b ∈ rows, P b x := by
  intro rows
  induction rows with
  | nil => intro d0 x h; exact Or.inl h
  | cons b rest ih =>
    intro d0 x h
    rcases ih (step d0 b) x h with h' | h'
    · rcases hstep d0 b x h' with h'' | h''
      · exact Or.inl h''
      · exact Or.inr ⟨b, List.mem_cons_self _ _, h''⟩
    · rcases h' with ⟨b', hb', hp⟩
      exact Or.inr ⟨b', List.mem_cons_of_mem _ hb', hp⟩

theorem memDict_sortDictVals (d : BrowseDict) (x : String)
    (h : MemDict (sortDictVals d) x) : MemDict d x := by
  rcases h with ⟨kv, hkv, hx⟩
  unfold sortDictVals at hkv
  rcases List.mem_map.mp hkv with ⟨kv0, hkv0, heq⟩
  refine ⟨kv0, hkv0, ?_⟩
  have : kv.2 = sortLe pyStrLe kv0.2 := by rw [← heq]
  rw [this] at hx
  exact (mem_sortLe pyStrLe kv0.2 x).mp hx

theorem browseJoinRows_hasPart (g : Graph) (p : String) (a b : String)
    (h : (a, b) ∈ browseJoinRows g p) :
    ∃ t2 ∈ g, t2.s = b ∧ t2.p = dct "hasPart" := by
  unfold browseJoinRows at h
  rcases List.mem_flatten.mp h with ⟨inner, hinner, hmem⟩
  rcases List.mem_map.mp hinner with ⟨t, htg, hteq⟩
  by_cases htp : t.p = p
  · rw [← hteq] at hmem
    simp only [htp, if_true] at hmem
    rcases List.mem_map.mp hmem with ⟨t2, ht2, heq2⟩
    rcases List.mem_filter.mp ht2 with ⟨ht2g, ht2p⟩
    simp only [Bool.and_eq_true, decide_eq_true_eq] at ht2p
    injection heq2 with e1 e2
    exact ⟨t2, ht2g, by rw [ht2p.1, e2], ht2p.2⟩
  · rw [← hteq] at hmem
    simp [htp] at hmem

theorem memDict_guarded_add (d2 : BrowseDict) (L v x : String)
    (h : MemDict (if L = "" then d2 else dictAddSet d2 L v) x) :
    MemDict d2 x ∨ x = v := by
  by_cases hL : L = ""
  · rw [if_pos hL] at h; exact Or.inl h
  · rw [if_neg hL] at h; exact memDict_dictAddSet d2 L v x h

theorem memDict_browse_plain (g : Graph) (p : String) (x : String)
    (h : MemDict (get_browse_terms_plain g p) x) :
    ∃ row ∈ browseJoinRows g p, x = regularize_string row.2 := by
  unfold get_browse_terms_plain at h
  have := memDict_foldl _ (fun row x => x = regularize_string row.2)
    (fun d b x hb => by
      rcases memDict_foldl _ (fun _ y => y = regularize_string b.2)
        (fun d2 L y hy => memDict_guarded_add d2 (regularize_string L)
          (regularize_string b.2) y hy)
        (pySplit '\n' b.1) d x hb with h' | h'
      · exact Or.inl h'
      · exact Or.inr h'.choose_spec.2)
    (browseJoinRows g p) [] x h
  rcases this with h' | h'
  · rcases h' with ⟨kv, hkv, _⟩; cases hkv
  · exact h'

theorem memDict_browse_language (g : Graph) (x : String)
    (h : MemDict (get_browse_terms_language g) x) :
    ∃ row ∈ browseJoinRows g (dc11 "language"),
      x = regularize_string row.2 := by
  unfold get_browse_terms_language at h
  have := memDict_foldl _ (fun row x => x = regularize_string row.2)
    (fun d b x hb => by
      rcases memDict_foldl _ (fun _ y => y = regularize_string b.2)
        (fun d2 L y hy => memDict_guarded_add d2 (regularize_string L)
          (regularize_string b.2) y hy)
        (get_glottolog_language_names_preferred g (regularize_string b.1))
        d x hb with h' | h'
      · exact Or.inl h'
      · exact Or.inr h'.choose_spec.2)
    (browseJoinRows g (dc11 "language")) [] x h
  rcases this with h' | h'
  · rcases h' with ⟨kv, hkv, _⟩; cases hkv
  · exact h'

theorem memDict_browse_location (g : Graph) (x : String)
    (h : MemDict (get_browse_terms_location g) x) :
    ∃ row ∈ browseJoinRows g (dct "spatial"),
      x = regularize_string row.2 := by
  unfold get_browse_terms_location at h
  have := memDict_foldl _ (fun row x => x = regularize_string row.2)
    (fun d b x hb => by
      rcases memDict_foldl _ (fun _ y => y = regularize_string b.2)
        (fun d1 code y hy => by
          rcases memDict_foldl _ (fun _ z => z = regularize_string b.2)
            (fun d2 L z hz => memDict_guarded_add d2 (regularize_string L)
              (regularize_string b.2) z hz)
            (get_tgn_place_names_preferred g (regularize_string code))
            d1 y hy with h' | h'
          · exact Or.inl h'
          · exact Or.inr h'.choose_spec.2)
        (pySplitWs b.1) d x hb with h' | h'
      · exact Or.inl h'
      · exact Or.inr h'.choose_spec.2)
    (browseJoinRows g (dct "spatial")) [] x h
  rcases this with h' | h'
  · rcases h' with ⟨kv, hkv, _⟩; cases hkv
  · exact h'

theorem memDict_browse_decade (g : Graph) (d : BrowseDict) (x : String)
    (hd : get_browse_terms_decade g = some d) (h : MemDict d x) :
    ∃ row ∈ browseJoinRows g (dct "date"), x = row.2 := by
  unfold get_browse_terms_decade at hd
  suffices hgen : ∀ (rows : List (String × String)) (d0 d1 : BrowseDict),
      rows.foldlM (fun d row => (decadesOfDate row.1).map
        (fun decs => decs.foldl (fun d2 dec => dictAddSet d2 dec row.2) d))
        d0 = some d1 →
      MemDict d1 x → MemDict d0 x ∨ ∃ row ∈ rows, x = row.2 by
    rcases hgen (browseJoinRows g (dct "date")) [] d hd h with h' | h'
    · rcases h' with ⟨kv, hkv, _⟩; cases hkv
    · exact h'
  intro rows
  induction rows with
  | nil =>
    intro d0 d1 heq hm
    simp only [List.foldlM_nil, Option.pure_def, Option.some.injEq] at heq
    exact Or.inl (by rw [heq]; exact hm)
  | cons b rest ih =>
    intro d0 d1 heq hm
    simp only [List.foldlM_cons] at heq
    cases hdo : decadesOfDate b.1 with
    | none => rw [hdo] at heq; simp at heq
    | some decs =>
      rw [hdo] at heq
      have heq' : rest.foldlM (fun d row => (decadesOfDate row.1).map
          (fun decs => decs.foldl (fun d2 dec => dictAddSet d2 dec row.2) d))
          (decs.foldl (fun d2 dec => dictAddSet d2 dec b.2) d0) = some d1 := by
        simpa using heq
      rcases ih _ d1 heq' hm with h' | h'
      · rcases memDict_foldl _ (fun _ y => y = b.2)
          (fun d2 dec y hy => memDict_dictAddSet d2 dec b.2 y hy)
          decs d0 x h' with h'' | h''
        · exact Or.inl h''
        · exact Or.inr ⟨b, List.mem_cons_self _ _, h''.choose_spec.2⟩
      · rcases h' with ⟨b', hb', hx⟩
        exact Or.inr ⟨b', List.mem_cons_of_mem _ hb', hx⟩

theorem browse_id_is_series (g : Graph)
    (hreg : ∀ t ∈ g, regularize_string t.s = t.s)
    (bt : BrowseType) (d : BrowseDict)
    (hged : get_browse_terms g bt = some d) (x : String)
    (hx : MemDict d x) :
    ∃ t2 ∈ g, t2.s = x ∧ t2.p = dct "hasPart" := by
  have fin : ∀ (p : String) (row : String × String),
      row ∈ browseJoinRows g p → (x = regularize_string row.2 ∨ x = row.2) →
      ∃ t2 ∈ g, t2.s = x ∧ t2.p = dct "hasPart" := by
    intro p row hrow hx'
    rcases browseJoinRows_hasPart g p row.1 row.2 hrow with ⟨t2, ht2g, hts, htp⟩
    rcases hx' with hx' | hx'
    · have : regularize_string row.2 = row.2 := by
        rw [← hts]; exact hreg t2 ht2g
      exact ⟨t2, ht2g, by rw [hts, hx', this], htp⟩
    · exact ⟨t2, ht2g, by rw [hts, hx'], htp⟩
  cases bt with
  | decade =>
    simp only [get_browse_terms] at hged
    cases hdec : get_browse_terms_decade g with
    | none => rw [hdec] at hged; cases hged
    | some d' =>
      rw [hdec] at hged
      simp only [Option.map_some', Option.some.injEq] at hged
      have hmem : MemDict d' x :=
        memDict_sortDictVals d' x (by rw [hged]; exact hx)
      rcases memDict_browse_decade g d' x hdec hmem with ⟨row, hrow, hxr⟩
      exact fin (dct "date") row hrow (Or.inr hxr)
  | language =>
    simp only [get_browse_terms, Option.some.injEq] at hged
    have hmem : MemDict (get_browse_terms_language g) x :=
      memDict_sortDictVals _ x (by rw [hged]; exact hx)
    rcases memDict_browse_language g x hmem with ⟨row, hrow, hxr⟩
    exact fin (dc11 "language") row hrow (Or.inl hxr)
  | location =>
    simp only [get_browse_terms, Option.some.injEq] at hged
    have hmem : MemDict (get_browse_terms_location g) x :=
      memDict_sortDictVals _ x (by rw [hged]; exact hx)
    rcases memDict_browse_location g x hmem with ⟨row, hrow, hxr⟩
    exact fin (dct "spatial") row hrow (Or.inl hxr)
  | contributor =>
    simp only [get_browse_terms, Option.some.injEq] at hged
    have hmem : MemDict (get_browse_terms_plain g (dct "contributor")) x :=
      memDict_sortDictVals _ x (by rw [hged]; exact hx)
    rcases memDict_browse_plain g _ x hmem with ⟨row, hrow, hxr⟩
    exact fin (dct "contributor") row hrow (Or.inl hxr)
  | creator =>
    simp only [get_browse_terms, Option.some.injEq] at hged
    have hmem : MemDict (get_browse_terms_plain g (dct "creator")) x :=
      memDict_sortDictVals _ x (by rw [hged]; exact hx)
    rcases memDict_browse_plain g _ x hmem with ⟨row, hrow, hxr⟩
    exact fin (dct "creator") row hrow (Or.inl hxr)
  | date =>
    simp only [get_browse_terms, Option.some.injEq] at hged
    have hmem : MemDict (get_browse_terms_plain g (dct "date")) x :=
      memDict_sortDictVals _ x (by rw [hged]; exact hx)
    rcases memDict_browse_plain g _ x hmem with ⟨row, hrow, hxr⟩
    exact fin (dct "date") row hrow (Or.inl hxr)

theorem mem_browseRowsFor (g : Graph) (bt : BrowseType)
    (rows : List BrowseRow) (r : BrowseRow)
    (h : browseRowsFor g bt = some rows) (hr : r ∈ rows) :
    ∃ d, get_browse_terms g bt = some d ∧ MemDict d r.id := by
  unfold browseRowsFor at h
  cases hged : get_browse_terms g bt with
  | none => rw [hged] at h; cases h
  | some d =>
    rw [hged] at h
    simp only [Option.map_some', Option.some.injEq] at h
    refine ⟨d, rfl, ?_⟩
    rw [← h] at hr
    rcases List.mem_flatten.mp hr with ⟨inner, hinner, hmem⟩
    rcases List.mem_map.mp hinner with ⟨kv, hkv, hkveq⟩
    rw [← hkveq] at hmem
    rcases List.mem_map.mp hmem with ⟨i, hi, hieq⟩
    refine ⟨kv, hkv, ?_⟩
    have : r.id = i := by rw [← hieq]
    rw [this]; exact hi

/-- C10.  Every identifier placed in a browse row by `build_db`, for
every browse type, is a series identifier: a node with at least one
`dcterms:hasPart` relation in the graph.  (Identifiers are assumed
whitespace-regular, which holds for URIs; `get_browse` counts and
`get_browse_term` joins read exactly these rows.) -/
theorem claim_C10_browse_rows_are_series (g : Graph)
    (hreg : ∀ t ∈ g, regularize_string t.s = t.s)
    (st : Store) (hst : build_store g = some st) :
    ∀ r ∈ st.browse, ∃ t2 ∈ g, t2.s = r.id ∧ t2.p = dct "hasPart" := by
  intro r hr
  unfold build_store at hst
  cases hbr : allBrowseRows g with
  | none => rw [hbr] at hst; cases hst
  | some br =>
    rw [hbr] at hst
    simp only [Option.map_some', Option.some.injEq] at hst
    have hrbr : r ∈ br := by rw [← hst] at hr; exact hr
    unfold allBrowseRows at hbr
    cases h1 : browseRowsFor g .contributor with
    | none => rw [h1] at hbr; cases hbr
    | some a =>
    rw [h1] at hbr
    cases h2 : browseRowsFor g .creator with
    | none => rw [h2] at hbr; cases hbr
    | some b =>
    rw [h2] at hbr
    cases h3 : browseRowsFor g .date with
    | none => rw [h3] at hbr; cases hbr
    | some c =>
    rw [h3] at hbr
    cases h4 : browseRowsFor g .decade with
    | none => rw [h4] at hbr; cases hbr
    | some d =>
    rw [h4] at hbr
    cases h5 : browseRowsFor g .language with
    | none => rw [h5] at hbr; cases hbr
    | some e =>
    rw [h5] at hbr
    cases h6 : browseRowsFor g .location with
    | none => rw [h6] at hbr; cases hbr
    | some f =>
    rw [h6] at hbr
    simp only [Option.bind_eq_bind, Option.some_bind, Option.pure_def,
      Option.some.injEq] at hbr
    rw [← hbr] at hrbr
    simp only [List.append_assoc, List.mem_append] at hrbr
    have handle : ∀ (bt : BrowseType) (rows : List BrowseRow),
        browseRowsFor g bt = some rows → r ∈ rows →
        ∃ t2 ∈ g, t2.s = r.id ∧ t2.p = dct "hasPart" := by
      intro bt rows hrows hrin
      rcases mem_browseRowsFor g bt rows r hrows hrin with ⟨dd, hdd, hmd⟩
      exact browse_id_is_series g hreg bt dd hdd r.id hmd
    rcases hrbr with h | h | h | h | h | h
    · exact handle .contributor a h1 h
    · exact handle .creator b h2 h
    · exact handle .date c h3 h
    · exact handle .decade d h4 h
    · exact handle .language e h5 h
    · exact handle .location f h6 h

/-- C10, witness: on the concrete graph `gW` the build produces a
browse table with one contributor row, and the claim theorem yields its
`hasPart` witness. -/
theorem claim_C10_witness :
    (∀ t ∈ gW, regularize_string t.s = t.s) ∧
    ∃ st, build_store gW = some st ∧
      (⟨"contributor", "Alice", "https://ex.org/ser1"⟩ : BrowseRow) ∈
        st.browse ∧
      ∀ r ∈ st.browse, ∃ t2 ∈ gW, t2.s = r.id ∧ t2.p = dct "hasPart" := by
  have hreg : ∀ t ∈ gW, regularize_string t.s = t.s := by decide
  have hbr : allBrowseRows gW =
      some [⟨"contributor", "Alice", "https://ex.org/ser1"⟩] := by decide
  have hst : build_store gW = some
      { browse := [⟨"contributor", "Alice", "https://ex.org/ser1"⟩]
        item := (get_item_identifiers gW).map (itemRowFor gW)
        series := (get_series_identifiers gW).map (seriesRowFor gW) } := by
    unfold build_store
    rw [hbr]
    rfl
  refine ⟨hreg, _, hst, by simp, ?_⟩
  exact claim_C10_browse_rows_are_series gW hreg _ hst

/-! ### The built store resolves items by identifier -/

theorem setAdd_nodup {α : Type} [DecidableEq α] (l : List α) (a : α)
    (h : l.Nodup) : (setAdd l a).Nodup := by
  unfold setAdd
  by_cases ha : a ∈ l
  · simpa [ha]
  · simp only [ha, if_false]
    refine List.Nodup.append h (List.nodup_singleton a) ?_
    intro x hx hmem
    simp only [List.mem_singleton] at hmem
    exact ha (hmem ▸ hx)

theorem setOfList_nodup {α : Type} [DecidableEq α] (l : List α) :
    (setOfList l).Nodup := by
  suffices hgen : ∀ acc : List α, acc.Nodup → (l.foldl setAdd acc).Nodup from
    hgen [] List.nodup_nil
  induction l with
  | nil => intro acc h; exact h
  | cons a t ih => intro acc h; exact ih (setAdd acc a) (setAdd_nodup acc a h)

theorem get_item_identifiers_nodup (g : Graph) :
    (get_item_identifiers g).Nodup := by
  unfold get_item_identifiers
  exact ((sortLe_perm pyStrLe _).nodup_iff).mpr (setOfList_nodup _)

theorem filter_eq_self_of_nodup {α : Type} [DecidableEq α] :
    ∀ (keys : List α), keys.Nodup → ∀ i ∈ keys,
      keys.filter (fun k => k = i) = [i] := by
  intro keys
  induction keys with
  | nil => intro _ i hi; cases hi
  | cons a t ih =>
    intro hnd i hi
    rcases List.mem_cons.mp hi with h | h
    · subst h
      have hnotin : i ∉ t := (List.nodup_cons.mp hnd).1
      rw [List.filter_cons_of_pos (by simp)]
      rw [List.filter_eq_nil_iff.mpr (by
        intro b hb
        simp only [decide_eq_true_eq]
        intro hbi
        exact hnotin (hbi ▸ hb))]
    · have hne : ¬ (a = i) := by
        intro he
        exact (List.nodup_cons.mp hnd).1 (he ▸ h)
      rw [List.filter_cons_of_neg (by simpa using hne)]
      exact ih (List.nodup_cons.mp hnd).2 i h

theorem dictGetLast_map_nodup {α : Type} (f : String → α)
    (keys : List String) (hnd : keys.Nodup) (i : String) (hi : i ∈ keys) :
    dictGetLast (keys.map (fun k => (k, f k))) i = some (f i) := by
  unfold dictGetLast
  have hfil : (keys.map (fun k => (k, f k))).filter (fun kv => kv.1 = i) =
      (keys.filter (fun k => k = i)).map (fun k => (k, f k)) := by
    rw [List.filter_map]
    rfl
  rw [hfil, filter_eq_self_of_nodup keys hnd i hi]
  rfl

theorem built_get_item (g : Graph) (st : Store)
    (hst : build_store g = some st) (i : String)
    (hi : i ∈ get_item_identifiers g) :
    MLCDB_get_item (connect st) i = some (get_item_info g i) := by
  unfold build_store at hst
  cases hbr : allBrowseRows g with
  | none => rw [hbr] at hst; cases hst
  | some br =>
    rw [hbr] at hst
    simp only [Option.map_some', Option.some.injEq] at hst
    have hitem : (connect st).item_info =
        (get_item_identifiers g).map
          (fun k => (k, get_item_info g k)) := by
      rw [← hst]
      show ((get_item_identifiers g).map (itemRowFor g)).map
          (fun r => (r.id, r.info)) = _
      rw [List.map_map]
      rfl
    unfold MLCDB_get_item
    rw [hitem]
    exact dictGetLast_map_nodup _ _ (get_item_identifiers_nodup g) i hi

/-- C2 (amended).  For every item identifier `I` in the built store,
`get_item(I)` returns a record whose `ark` field equals `I`; the
`identifier` field instead holds the item's `dc:identifier` metadata
values, not `I`. -/
theorem claim_C2_get_item_ark (g : Graph) (st : Store)
    (hst : build_store g = some st) (i : String)
    (hi : i ∈ get_item_identifiers g) :
    ∃ rec, MLCDB_get_item (connect st) i = some rec ∧
      rec.ark = i ∧
      rec.identifier = predValues g i (dc11 "identifier") :=
  ⟨get_item_info g i, built_get_item g st hst i hi, rfl, rfl⟩

/-- C2, counterexample: in a store built from a graph whose item
`…/item1` carries `dc:identifier` `"1234"`, `get_item` returns a record
whose `identifier` field is `["1234"]`, not the item identifier; the
round-trip identity holds for the `ark` field instead. -/
theorem claim_C2_counterexample :
    "https://ex.org/item1" ∈ get_item_identifiers gC2 ∧
    (∃ st, build_store gC2 = some st ∧
      MLCDB_get_item (connect st) "https://ex.org/item1" =
        some (get_item_info gC2 "https://ex.org/item1")) ∧
    (get_item_info gC2 "https://ex.org/item1").identifier = ["1234"] ∧
    (get_item_info gC2 "https://ex.org/item1").identifier ≠
      ["https://ex.org/item1"] ∧
    (get_item_info gC2 "https://ex.org/item1").ark =
      "https://ex.org/item1" := by
  have hi : "https://ex.org/item1" ∈ get_item_identifiers gC2 := by decide
  have hbr : allBrowseRows gC2 = some [] := by decide
  have hst : build_store gC2 = some
      { browse := []
        item := (get_item_identifiers gC2).map (itemRowFor gC2)
        series := (get_series_identifiers gC2).map (seriesRowFor gC2) } := by
    unfold build_store
    rw [hbr]
    rfl
  refine ⟨hi, ⟨_, hst, built_get_item gC2 _ hst _ hi⟩, ?_, ?_, rfl⟩
  · show predValues gC2 "https://ex.org/item1" (dc11 "identifier") = _
    decide
  · show predValues gC2 "https://ex.org/item1" (dc11 "identifier") ≠ _
    decide

/-- C2, witness: the amended theorem applied to the concrete graph
`gW`, whose single item's record carries `ark = ` the item URI. -/
theorem claim_C2_witness :
    "https://ex.org/item1" ∈ get_item_identifiers gW ∧
    ∃ st, build_store gW = some st ∧
    ∃ rec, MLCDB_get_item (connect st) "https://ex.org/item1" = some rec ∧
      rec.ark = "https://ex.org/item1" := by
  have hi : "https://ex.org/item1" ∈ get_item_identifiers gW := by decide
  have hbr : allBrowseRows gW =
      some [⟨"contributor", "Alice", "https://ex.org/ser1"⟩] := by decide
  have hst : build_store gW = some
      { browse := [⟨"contributor", "Alice", "https://ex.org/ser1"⟩]
        item := (get_item_identifiers gW).map (itemRowFor gW)
        series := (get_series_identifiers gW).map (seriesRowFor gW) } := by
    unfold build_store
    rw [hbr]
    rfl
  rcases claim_C2_get_item_ark gW _ hst _ hi with ⟨rec, hrec, hark, _⟩
  exact ⟨hi, _, hst, rec, hrec, hark⟩

/-! ### Build is not all-or-nothing -/

/-- C4 (amended).  `build_db` deletes any prior store before parsing
the graphs; the schema is committed in one transaction and the rows in
a second.  The externally visible states are exactly: the prior store,
no store at all, an empty store, a schema-only store, and — only on
full success — the populated store.  A crash mid-build therefore leaves
one of the intermediate states, never the prior store. -/
theorem claim_C4_build_states (prior : StoreState) (g : Graph)
    (st : Store) (hst : build_store g = some st) :
    build_db_states prior g =
      [prior, .absent, .noSchema, .schemaOnly, .populated st] ∧
    ∀ s ∈ build_db_states prior g,
      s = prior ∨ s = .absent ∨ s = .noSchema ∨ s = .schemaOnly ∨
        s = .populated st := by
  have hstates : build_db_states prior g =
      [prior, .absent, .noSchema, .schemaOnly, .populated st] := by
    unfold build_db_states
    rw [hst]
    rfl
  refine ⟨hstates, ?_⟩
  intro s hs
  rw [hstates] at hs
  simpa using hs

/-- C4, counterexample: with a non-empty prior store, the visible build
states include "no store" and "schema with no rows", neither of which
is the prior store or a fully populated store — the build is not
all-or-nothing and the prior store is not left untouched. -/
theorem claim_C4_counterexample :
    StoreState.schemaOnly ∈
      build_db_states (StoreState.populated ⟨[], [], []⟩) gW ∧
    StoreState.absent ∈
      build_db_states (StoreState.populated ⟨[], [], []⟩) gW ∧
    StoreState.schemaOnly ≠ StoreState.populated ⟨[], [], []⟩ ∧
    StoreState.absent ≠ StoreState.populated ⟨[], [], []⟩ ∧
    ∀ st : Store, StoreState.schemaOnly ≠ StoreState.populated st := by
  refine ⟨?_, ?_, by simp, by simp, fun st => by simp⟩
  · unfold build_db_states
    simp
  · unfold build_db_states
    simp

/-- C4, witness: the amended theorem at the concrete graph `gW`. -/
theorem claim_C4_witness :
    ∃ st, build_store gW = some st ∧
      build_db_states StoreState.absent gW =
        [.absent, .absent, .noSchema, .schemaOnly, .populated st] := by
  have hbr : allBrowseRows gW =
      some [⟨"contributor", "Alice", "https://ex.org/ser1"⟩] := by decide
  have hst : build_store gW = some
      { browse := [⟨"contributor", "Alice", "https://ex.org/ser1"⟩]
        item := (get_item_identifiers gW).map (itemRowFor gW)
        series := (get_series_identifiers gW).map (seriesRowFor gW) } := by
    unfold build_store
    rw [hbr]
    rfl
  exact ⟨_, hst, (claim_C4_build_states StoreState.absent gW _ hst).1⟩

/-! ### Query normalization claim -/

theorem get_search_empty_query (st : Store) (f1 f2 : Fts)
    (facets : List String) (sort : SortType) :
    get_search st f1 "" facets sort = get_search st f2 "" facets sort := by
  unfold get_search seriesSelected itemsSelected orderSeries
  simp

/-- C7.  Query normalization truncates to 256 characters, replaces
every run of non-letter/digit characters by one space, collapses
whitespace, and joins the first 32 tokens with `" AND "` (stated as an
equivalence with the spec-side normalization, for every letter/digit
class disjoint from whitespace); `"Hello,   World!!"` normalizes to
`"Hello AND World"`; and an empty query applies no text filter — the
search result does not depend on the FTS engine at all. -/
theorem claim_C7_query_normalization :
    (∀ isLN : Char → Bool, (∀ c, isLN c = true → c.isWhitespace = false) →
      ∀ q, convert_raw_query_to_fts isLN q = specNormalizeQuery isLN q) ∧
    convert_raw_query_to_fts Char.isAlphanum "Hello,   World!!" =
      "Hello AND World" ∧
    (∀ (st : Store) (f1 f2 : Fts) (facets : List String) (sort : SortType),
      get_search st f1 "" facets sort = get_search st f2 "" facets sort) :=
  ⟨convert_eq_specNormalize, by decide, get_search_empty_query⟩

/-- C7, witness: the normalization equivalence applied at a concrete
letter class and query. -/
theorem claim_C7_witness :
    (∀ c, (decide (c = 'a') : Bool) = true → c.isWhitespace = false) ∧
    convert_raw_query_to_fts (fun c => decide (c = 'a')) "a!!a" =
      specNormalizeQuery (fun c => decide (c = 'a')) "a!!a" ∧
    convert_raw_query_to_fts (fun c => decide (c = 'a')) "a!!a" =
      "a AND a" := by
  have h2 : ∀ c, (decide (c = 'a') : Bool) = true → c.isWhitespace = false := by
    intro c hc
    simp only [decide_eq_true_eq] at hc
    subst hc
    decide
  exact ⟨h2,
    claim_C7_query_normalization.1 (fun c => decide (c = 'a')) h2 "a!!a",
    by decide⟩

/-! ### The series lookup dictionary of `get_search` -/

theorem pySplit_no_sep (sep : Char) (s : String) (h : sep ∉ s.data) :
    pySplit sep s = [s] := by
  unfold pySplit
  rw [splitSepList_no_sep sep s.data h]
  have hmk : String.mk s.data = s := by cases s; rfl
  simp [hmk]

theorem pyDictGet_pyDictSet (d : List (String × Nat)) (k0 k : String)
    (v0 : Nat) :
    pyDictGet (pyDictSet d k0 v0) k =
      if k0 = k then some v0 else pyDictGet d k := by
  induction d with
  | nil =>
    by_cases h : k0 = k <;> simp [pyDictSet, pyDictGet, h]
  | cons p t ih =>
    by_cases hp : p.1 = k0
    · have hthis : pyDictSet (p :: t) k0 v0 = (k0, v0) :: t := by
        rcases p with ⟨f, s⟩
        show (if f = k0 then (k0, v0) :: t else (f, s) :: pyDictSet t k0 v0)
          = (k0, v0) :: t
        simp_all
      rw [hthis]
      by_cases h : k0 = k
      · simp [pyDictGet, h]
      · unfold pyDictGet
        rw [List.find?_cons_of_neg _ (by simpa using h),
          List.find?_cons_of_neg _ (by simp [hp, h])]
        simp [h]
    · have hthis : pyDictSet (p :: t) k0 v0 = p :: pyDictSet t k0 v0 := by
        rcases p with ⟨f, s⟩
        show (if f = k0 then (k0, v0) :: t else (f, s) :: pyDictSet t k0 v0)
          = (f, s) :: pyDictSet t k0 v0
        simp_all
      rw [hthis]
      by_cases hpk : p.1 = k
      · unfold pyDictGet
        rw [List.find?_cons_of_pos _ (by simpa using hpk),
          List.find?_cons_of_pos _ (by simpa using hpk)]
        have : ¬ (k0 = k) := fun he => hp (he ▸ hpk)
        simp [this]
      · unfold pyDictGet
        rw [List.find?_cons_of_neg _ (by simpa using hpk),
          List.find?_cons_of_neg _ (by simpa using hpk)]
        exact ih

theorem pyDictGet_foldl (pairs : List (String × Nat)) :
    ∀ (d0 : List (String × Nat)) (k : String),
      pyDictGet (pairs.foldl (fun d p => pyDictSet d p.1 p.2) d0) k =
        (match pairs.reverse.find? (fun p => p.1 = k) with
         | some q => some q.2
         | none => pyDictGet d0 k) := by
  induction pairs with
  | nil => intro d0 k; simp
  | cons p rest ih =>
    intro d0 k
    simp only [List.foldl_cons]
    rw [ih (pyDictSet d0 p.1 p.2) k]
    have hrev : (p :: rest).reverse = rest.reverse ++ [p] := by simp
    rw [hrev, List.find?_append]
    cases hf : rest.reverse.find? (fun q => q.1 = k) with
    | some q => simp [Option.or]
    | none =>
      simp only [Option.none_or]
      by_cases hpk : p.1 = k
      · rw [List.find?_cons_of_pos _ (by simpa using hpk)]
        rw [pyDictGet_pyDictSet d0 p.1 k p.2]
        simp [hpk]
      · rw [List.find?_cons_of_neg _ (by simpa using hpk)]
        rw [pyDictGet_pyDictSet d0 p.1 k p.2]
        simp [hpk]

theorem buildSeriesLookup_eq (entries : List SEntry)
    (hbar : ∀ e ∈ entries, '|' ∉ e.id.data) :
    buildSeriesLookup entries =
      (entries.enum.map (fun se => (se.2.id, se.1))).foldl
        (fun d p => pyDictSet d p.1 p.2) [] := by
  unfold buildSeriesLookup
  rw [List.foldl_map]
  have hcong : ∀ (d : List (String × Nat)) (se : Nat × SEntry),
      se ∈ entries.enum →
      (pySplit '|' se.2.id).foldl (fun d2 sid => pyDictSet d2 sid se.1) d =
        pyDictSet d se.2.id se.1 := by
    intro d se hse
    have hmem : se.2 ∈ entries := by
      have := List.enum_map_snd entries
      rw [← this]
      exact List.mem_map_of_mem Prod.snd hse
    rw [pySplit_no_sep '|' se.2.id (hbar se.2 hmem)]
    simp
  -- both sides are foldls over `entries.enum`; rewrite stepwise
  suffices hgen : ∀ (l : List (Nat × SEntry)), (∀ se ∈ l, se ∈ entries.enum) →
      ∀ d : List (String × Nat),
      l.foldl (fun d se =>
        (pySplit '|' se.2.id).foldl (fun d2 sid => pyDictSet d2 sid se.1) d)
        d =
      l.foldl (fun d se => pyDictSet d se.2.id se.1) d from
    hgen entries.enum (fun _ h => h) []
  intro l
  induction l with
  | nil => intro _ d; rfl
  | cons se rest ih =>
    intro hmem d
    simp only [List.foldl_cons]
    rw [hcong d se (hmem se (List.mem_cons_self _ _))]
    exact ih (fun x hx => hmem x (List.mem_cons_of_mem _ hx)) _

theorem buildSeriesLookup_spec (entries : List SEntry)
    (hbar : ∀ e ∈ entries, '|' ∉ e.id.data)
    (hnd : (entries.map SEntry.id).Nodup) (sid : String) (ix : Nat) :
    pyDictGet (buildSeriesLookup entries) sid = some ix ↔
      ∃ h : ix < entries.length, (entries.get ⟨ix, h⟩).id = sid := by
  rw [buildSeriesLookup_eq entries hbar, pyDictGet_foldl]
  constructor
  · intro h
    cases hf : (entries.enum.map (fun se => (se.2.id, se.1))).reverse.find?
        (fun p => p.1 = sid) with
    | none => rw [hf] at h; simp [pyDictGet] at h
    | some q =>
      rw [hf] at h
      simp only [Option.some.injEq] at h
      have hq1 : q.1 = sid := by simpa using List.find?_some hf
      have hqmem : q ∈ entries.enum.map (fun se => (se.2.id, se.1)) := by
        have := List.mem_of_find?_eq_some hf
        simpa using this
      rcases List.mem_map.mp hqmem with ⟨se, hse, hseq⟩
      have hse' : (se.1, se.2) ∈ entries.enum := by simpa using hse
      have hget := List.mem_enum_iff_getElem?.mp hse'
      rcases List.getElem?_eq_some.mp hget with ⟨hlt, hgete⟩
      have hixeq : ix = se.1 := by rw [← h, ← hseq]
      subst hixeq
      refine ⟨hlt, ?_⟩
      show (entries.get ⟨se.1, hlt⟩).id = sid
      have : entries.get ⟨se.1, hlt⟩ = se.2 := hgete
      rw [this, ← hq1, ← hseq]
  · rintro ⟨hlt, hid⟩
    cases hf : (entries.enum.map (fun se => (se.2.id, se.1))).reverse.find?
        (fun p => p.1 = sid) with
    | none =>
      exfalso
      have hsome : ((entries.enum.map (fun se => (se.2.id, se.1))).reverse.find?
          (fun p => p.1 = sid)).isSome := by
        rw [List.find?_isSome]
        refine ⟨(sid, ix), ?_, by simp⟩
        rw [List.mem_reverse]
        refine List.mem_map.mpr ⟨(ix, entries.get ⟨ix, hlt⟩),
          List.mem_enum_iff_getElem?.mpr
            (by simp [List.getElem?_eq_getElem hlt]), ?_⟩
        show ((entries.get ⟨ix, hlt⟩).id, ix) = (sid, ix)
        rw [hid]
      rw [hf] at hsome
      cases hsome
    | some q =>
      have hq1 : q.1 = sid := by simpa using List.find?_some hf
      have hqmem : q ∈ entries.enum.map (fun se => (se.2.id, se.1)) := by
        have := List.mem_of_find?_eq_some hf
        simpa using this
      rcases List.mem_map.mp hqmem with ⟨se, hse, hseq⟩
      have hse' : (se.1, se.2) ∈ entries.enum := by simpa using hse
      have hget := List.mem_enum_iff_getElem?.mp hse'
      rcases List.getElem?_eq_some.mp hget with ⟨hlt2, hgete⟩
      have hid2 : (entries.get ⟨se.1, hlt2⟩).id = sid := by
        have : entries.get ⟨se.1, hlt2⟩ = se.2 := hgete
        rw [this, ← hq1, ← hseq]
      -- nodup of ids forces se.1 = ix
      have hmapeq : (entries.map SEntry.id).get
          ⟨se.1, by simpa using hlt2⟩ =
          (entries.map SEntry.id).get ⟨ix, by simpa using hlt⟩ := by
        simp only [List.get_map]
        rw [hid2, hid]
      have := (List.Nodup.get_inj_iff hnd).mp hmapeq
      have hix : se.1 = ix := by simpa using this
      simp only [Option.some.injEq]
      rw [← hseq]
      exact hix

/-! ### The merge loop of `get_search` -/

theorem addItems_inner (entries0 : List SEntry)
    (lookup : List (String × Nat))
    (hspec : ∀ sid ix, pyDictGet lookup sid = some ix ↔
      ∃ h : ix < entries0.length, (entries0.get ⟨ix, h⟩).id = sid)
    (iid : String) :
    ∀ (sids : List String), sids.Nodup →
    ∀ (acc : List SEntry), acc.length = entries0.length →
      (∀ j e ee, acc.get? j = some e → entries0.get? j = some ee →
        e.id = ee.id) →
      (sids.foldl (fun acc2 sid =>
          match pyDictGet lookup sid with
          | some ix =>
            List.modify (fun e => { e with items := e.items ++ [iid] }) ix acc2
          | none => acc2) acc).length = entries0.length ∧
      ∀ j e ee, acc.get? j = some e → entries0.get? j = some ee →
        (sids.foldl (fun acc2 sid =>
          match pyDictGet lookup sid with
          | some ix =>
            List.modify (fun e => { e with items := e.items ++ [iid] }) ix acc2
          | none => acc2) acc).get? j =
          some (if ee.id ∈ sids then
            { e with items := e.items ++ [iid] }
          else e) := by
  intro sids
  induction sids with
  | nil =>
    intro _ acc hlen hids
    refine ⟨hlen, ?_⟩
    intro j e ee hae hee
    simpa using hae
  | cons sid rest ih =>
    intro hnodup acc hlen hids
    have hnodup' : rest.Nodup := (List.nodup_cons.mp hnodup).2
    have hsid_notin : sid ∉ rest := (List.nodup_cons.mp hnodup).1
    simp only [List.foldl_cons]
    -- the one-step accumulator
    cases hlk : pyDictGet lookup sid with
    | none =>
      have hstep := ih hnodup' acc hlen hids
      refine ⟨hstep.1, ?_⟩
      intro j e ee hae hee
      rw [hstep.2 j e ee hae hee]
      congr 1
      by_cases hin : ee.id ∈ rest
      · simp [hin]
      · have hne : ¬ (ee.id = sid) := by
          intro heq
          have hj : j < entries0.length := by
            have := List.get?_eq_some.mp hee
            exact this.choose
          have : pyDictGet lookup sid = some j := by
            rw [hspec sid j]
            refine ⟨hj, ?_⟩
            have := List.get?_eq_some.mp hee
            rw [this.choose_spec, heq]
          rw [hlk] at this
          cases this
        simp [hin, hne]
    | some ix =>
      have hix := (hspec sid ix).mp hlk
      rcases hix with ⟨hixlt, hixid⟩
      set upd := fun e : SEntry => { e with items := e.items ++ [iid] }
        with hupd
      have hlen1 : (List.modify upd ix acc).length = entries0.length := by
        rw [List.length_modify]; exact hlen
      have hids1 : ∀ j e ee, (List.modify upd ix acc).get? j = some e →
          entries0.get? j = some ee → e.id = ee.id := by
        intro j e ee hae hee
        rw [List.get?_eq_getElem?, List.getElem?_modify] at hae
        cases hacc : acc[j]? with
        | none => rw [hacc] at hae; cases hae
        | some e0 =>
          rw [hacc] at hae
          simp only [Option.map_eq_map, Option.map_some',
            Option.some.injEq] at hae
          have hid0 : e0.id = ee.id :=
            hids j e0 ee (by rw [List.get?_eq_getElem?, hacc]) hee
          by_cases hj : ix = j
          · rw [← hae]
            simp [hj, hupd, hid0]
          · rw [← hae]
            simp [hj, hid0]
      have hstep := ih hnodup' (List.modify upd ix acc) hlen1 hids1
      refine ⟨hstep.1, ?_⟩
      intro j e ee hae hee
      have hae1 : (List.modify upd ix acc).get? j =
          some (if ix = j then upd e else e) := by
        rw [List.get?_eq_getElem?, List.getElem?_modify]
        rw [← List.get?_eq_getElem?, hae]
        rfl
      rw [hstep.2 j (if ix = j then upd e else e) ee hae1 hee]
      congr 1
      by_cases heq : ee.id = sid
      · -- j must be ix
        have hj : j < entries0.length := (List.get?_eq_some.mp hee).choose
        have hlkj : pyDictGet lookup sid = some j := by
          rw [hspec sid j]
          refine ⟨hj, ?_⟩
          rw [(List.get?_eq_some.mp hee).choose_spec, heq]
        have hjix : ix = j := by
          rw [hlk] at hlkj
          injection hlkj
        have hnotin : ee.id ∉ rest := by rw [heq]; exact hsid_notin
        simp [heq, hjix, hsid_notin]
      · -- j is not ix
        have hjne : ¬ (ix = j) := by
          intro hjeq
          subst hjeq
          have : entries0.get? ix = some (entries0.get ⟨ix, hixlt⟩) :=
            List.get?_eq_get hixlt
          rw [this] at hee
          injection hee with hee
          rw [hee] at hixid
          exact heq hixid
        by_cases hin : ee.id ∈ rest
        · simp [hjne, hin, heq]
        · simp [hjne, hin, heq]

theorem addItems_get (entries0 : List SEntry)
    (lookup : List (String × Nat))
    (hspec : ∀ sid ix, pyDictGet lookup sid = some ix ↔
      ∃ h : ix < entries0.length, (entries0.get ⟨ix, h⟩).id = sid) :
    ∀ (ires : List (String × List String)), (∀ p ∈ ires, p.2.Nodup) →
    ∀ (acc : List SEntry), acc.length = entries0.length →
      (∀ j e ee, acc.get? j = some e → entries0.get? j = some ee →
        e.id = ee.id) →
      (addItems acc lookup ires).length = entries0.length ∧
      ∀ j e ee, acc.get? j = some e → entries0.get? j = some ee →
        (addItems acc lookup ires).get? j =
          some { e with items := e.items ++
            ((ires.filter (fun p => ee.id ∈ p.2)).map Prod.fst) } := by
  intro ires
  induction ires with
  | nil =>
    intro _ acc hlen hids
    refine ⟨hlen, ?_⟩
    intro j e ee hae hee
    show acc.get? j = _
    rw [hae]
    simp
  | cons p rest ih =>
    intro hnodup acc hlen hids
    have hpnd : p.2.Nodup := hnodup p (List.mem_cons_self _ _)
    have hrestnd : ∀ q ∈ rest, q.2.Nodup := fun q hq =>
      hnodup q (List.mem_cons_of_mem _ hq)
    have hinner := addItems_inner entries0 lookup hspec p.1 p.2 hpnd acc
      hlen hids
    set acc1 := p.2.foldl (fun acc2 sid =>
      match pyDictGet lookup sid with
      | some ix =>
        List.modify (fun e => { e with items := e.items ++ [p.1] }) ix acc2
      | none => acc2) acc with hacc1
    have hids1 : ∀ j e ee, acc1.get? j = some e →
        entries0.get? j = some ee → e.id = ee.id := by
      intro j e ee hae hee
      cases hacc : acc.get? j with
      | none =>
        exfalso
        have hjlt : j < entries0.length := (List.get?_eq_some.mp hee).choose
        have : j < acc.length := by omega
        rw [List.get?_eq_get this] at hacc
        cases hacc
      | some e0 =>
        have := hinner.2 j e0 ee hacc hee
        rw [this] at hae
        injection hae with hae
        by_cases hin : ee.id ∈ p.2
        · rw [if_pos hin] at hae
          rw [← hae]
          exact hids j e0 ee hacc hee
        · rw [if_neg hin] at hae
          rw [← hae]
          exact hids j e0 ee hacc hee
    have houter := ih hrestnd acc1 hinner.1 hids1
    have haddeq : addItems acc lookup (p :: rest) = addItems acc1 lookup rest := by
      unfold addItems
      simp only [List.foldl_cons]
    refine ⟨by rw [haddeq]; exact houter.1, ?_⟩
    intro j e ee hae hee
    have hinner2 := hinner.2 j e ee hae hee
    have := houter.2 j (if ee.id ∈ p.2 then
        { e with items := e.items ++ [p.1] } else e) ee hinner2 hee
    rw [haddeq, this]
    by_cases hin : ee.id ∈ p.2
    · simp [List.filter_cons, hin]
    · simp [List.filter_cons, hin]

theorem mapM_parseFacet_some (facets : List String)
    (h : ∀ f ∈ facets, (parseFacet f).isSome) :
    ∃ pf, facets.mapM parseFacet = some pf := by
  induction facets with
  | nil => exact ⟨[], rfl⟩
  | cons f rest ih =>
    rcases Option.isSome_iff_exists.mp (h f (List.mem_cons_self _ _)) with
      ⟨q, hq⟩
    rcases ih (fun x hx => h x (List.mem_cons_of_mem _ hx)) with ⟨pfr, hpfr⟩
    refine ⟨q :: pfr, ?_⟩
    rw [List.mapM_cons, hq, hpfr]
    rfl

theorem get_search_eq (st : Store) (fts : Fts) (query : String)
    (facets : List String) (sort : SortType)
    (pf : List (String × String))
    (hpf : facets.mapM parseFacet = some pf) :
    get_search st fts query facets sort = some (
      let q := if query ≠ "" then convert_raw_query_to_fts fts.isLN query
               else query
      let sres := (orderSeries fts q sort (seriesSelected st fts q pf)).map
        (fun r => (⟨r.id, [],
          if q ≠ "" then fts.rank q r.text else 0⟩ : SEntry))
      addItems sres (buildSeriesLookup sres)
        ((orderItems (itemsSelected st fts q pf)).map
          (fun r => (r.id, pySplit '|' r.series_ids)))) := by
  unfold get_search
  rw [hpf]
  rfl

theorem orderSeries_perm (fts : Fts) (q : String) (sort : SortType)
    (rows : List SeriesRow) : (orderSeries fts q sort rows).Perm rows := by
  unfold orderSeries
  by_cases hq : q ≠ ""
  · rw [if_pos hq]
    cases sort <;> exact sortLe_perm _ rows
  · rw [if_neg hq]
    exact sortLe_perm _ rows

theorem filter_map_pair (l : List ItemRow) (x : String) :
    ((l.map (fun r => (r.id, pySplit '|' r.series_ids))).filter
        (fun p => x ∈ p.2)).map Prod.fst =
      (l.filter (fun ir => x ∈ pySplit '|' ir.series_ids)).map ItemRow.id := by
  rw [List.filter_map, List.map_map]
  rfl


theorem mapM_length_option {α β : Type} (f : α → Option β) :
    ∀ (l : List α) (l2 : List β), l.mapM f = some l2 → l2.length = l.length := by
  intro l
  induction l with
  | nil =>
    intro l2 h
    simp only [List.mapM_nil, Option.pure_def, Option.some.injEq] at h
    rw [← h]
    rfl
  | cons a t ih =>
    intro l2 h
    rw [List.mapM_cons] at h
    cases hfa : f a with
    | none => rw [hfa] at h; simp at h
    | some b =>
      rw [hfa] at h
      cases hmt : t.mapM f with
      | none => rw [hmt] at h; simp at h
      | some bs =>
        rw [hmt] at h
        simp at h
        rw [← h]
        simp [ih bs hmt]

/-- C1.  For every query, facet list (each facet containing a colon)
and allow-listed sort type, on a store whose series identifiers are
distinct and `|`-free and whose items carry duplicate-free owning-series
lists (all guaranteed by `build_db`): `get_search` returns entries whose
series set is exactly the series passing the text filter *and* the
intersection of all facet subqueries; each entry's item list is exactly
the item hits (same query and facets) whose owning-series set contains
that entry's series identifier; and without a text query every rank is
0.  Series with zero matching items still appear (their entry simply
has an empty item list). -/
theorem claim_C1_search_merge (st : Store) (fts : Fts) (query : String)
    (facets : List String) (sort : SortType)
    (hfacets : ∀ f ∈ facets, (parseFacet f).isSome)
    (hnd : (st.series.map SeriesRow.id).Nodup)
    (hbar : ∀ r ∈ st.series, '|' ∉ r.id.data)
    (hitems : ∀ r ∈ st.item, (pySplit '|' r.series_ids).Nodup) :
    ∃ pf res, facets.mapM parseFacet = some pf ∧
      get_search st fts query facets sort = some res ∧
      (res.map SEntry.id).Perm
        ((st.series.filter (fun r =>
          (effectiveQuery fts query = "" ||
            fts.ftsMatch (effectiveQuery fts query) r.text) &&
          (facets.isEmpty || facetOK st pf r.id))).map SeriesRow.id) ∧
      (∀ id, facetOK st pf id = true ↔
        ∀ p ∈ pf, id ∈ browseSel st p.1 p.2) ∧
      (∀ e ∈ res, e.items =
        ((orderItems (itemsSelected st fts (effectiveQuery fts query) pf)).filter
          (fun ir => e.id ∈ pySplit '|' ir.series_ids)).map ItemRow.id) ∧
      (query = "" → ∀ e ∈ res, e.rank = 0) := by
  rcases mapM_parseFacet_some facets hfacets with ⟨pf, hpf⟩
  set q := effectiveQuery fts query with hqdef
  set selRows := seriesSelected st fts q pf with hsel
  set ordRows := orderSeries fts q sort selRows with hord
  set sres := ordRows.map (fun r => (⟨r.id, [],
    if q ≠ "" then fts.rank q r.text else 0⟩ : SEntry)) with hsres
  set ires := (orderItems (itemsSelected st fts q pf)).map
    (fun r => (r.id, pySplit '|' r.series_ids)) with hires
  set res := addItems sres (buildSeriesLookup sres) ires with hresdef
  have hids_sres : sres.map SEntry.id = ordRows.map SeriesRow.id := by
    rw [hsres, List.map_map]
    rfl
  have hordperm : ordRows.Perm selRows := orderSeries_perm fts q sort selRows
  have hnd_sres : (sres.map SEntry.id).Nodup := by
    rw [hids_sres]
    refine ((hordperm.map SeriesRow.id).nodup_iff).mpr ?_
    exact ((List.filter_sublist _).map SeriesRow.id).nodup hnd
  have hbar_sres : ∀ e ∈ sres, '|' ∉ e.id.data := by
    intro e he
    rcases List.mem_map.mp he with ⟨r, hr, hre⟩
    have hrs : r ∈ st.series :=
      List.mem_of_mem_filter (hordperm.subset hr)
    rw [← hre]
    exact hbar r hrs
  have hspec := buildSeriesLookup_spec sres hbar_sres hnd_sres
  have hiresnd : ∀ p ∈ ires, p.2.Nodup := by
    intro p hp
    rcases List.mem_map.mp hp with ⟨r, hr, hrp⟩
    have hrs : r ∈ st.item :=
      List.mem_of_mem_filter ((sortLe_perm _ _).subset hr)
    rw [← hrp]
    exact hitems r hrs
  have hadd := addItems_get sres (buildSeriesLookup sres) hspec ires
    hiresnd sres rfl
    (fun j e ee hae hee => by
      rw [hae] at hee; injection hee with hee; rw [hee])
  have hmapid : res.map SEntry.id = sres.map SEntry.id := by
    apply List.ext_get?
    intro n
    rw [List.get?_map, List.get?_map]
    cases hs : sres.get? n with
    | none =>
      have hlen : sres.length ≤ n := List.get?_eq_none.mp hs
      have hnone : res.get? n = none := by
        rw [List.get?_eq_none, hresdef, hadd.1]
        exact hlen
      rw [hnone]
    | some e0 =>
      have := hadd.2 n e0 e0 hs hs
      rw [← hresdef] at this
      rw [this]
      rfl
  have hdecomp : ∀ e ∈ res, ∃ r, r ∈ ordRows ∧ e.id = r.id ∧
      e.rank = (if q ≠ "" then fts.rank q r.text else 0) ∧
      e.items = (ires.filter (fun p => r.id ∈ p.2)).map Prod.fst := by
    intro e he
    rcases List.mem_iff_get?.mp he with ⟨n, hn⟩
    have hlt : n < res.length := by
      rcases List.get?_eq_some.mp hn with ⟨h, _⟩
      exact h
    have hlt2 : n < sres.length := by
      rw [← hadd.1]
      rw [hresdef] at hlt
      exact hlt
    obtain ⟨e0, hs⟩ : ∃ e0, sres.get? n = some e0 := by
      cases hs : sres.get? n with
      | none => exact absurd (List.get?_eq_none.mp hs) (Nat.not_le.mpr hlt2)
      | some e0 => exact ⟨e0, rfl⟩
    have hX := hadd.2 n e0 e0 hs hs
    rw [← hresdef, hn] at hX
    injection hX with hE
    have he0 : e0 ∈ sres := List.get?_mem hs
    rcases List.mem_map.mp he0 with ⟨r, hr, hre⟩
    have hid0 : e0.id = r.id := by rw [← hre]
    have hitems0 : e0.items = [] := by rw [← hre]
    have hrank0 : e0.rank = (if q ≠ "" then fts.rank q r.text else 0) := by
      rw [← hre]
    refine ⟨r, hr, ?_, ?_, ?_⟩
    · rw [hE]
      show e0.id = r.id
      exact hid0
    · rw [hE]
      show e0.rank = _
      exact hrank0
    · rw [hE]
      show e0.items ++ (ires.filter (fun p => e0.id ∈ p.2)).map Prod.fst = _
      rw [hitems0, hid0, List.nil_append]
  have hielen : pf.length = facets.length := mapM_length_option parseFacet facets pf hpf
  have hie : facets.isEmpty = pf.isEmpty := by
    cases facets <;> cases pf <;> simp_all
  refine ⟨pf, res, hpf, ?_, ?_, ?_, ?_, ?_⟩
  · exact get_search_eq st fts query facets sort pf hpf
  · rw [hmapid, hids_sres, hie]
    exact hordperm.map SeriesRow.id
  · intro id
    simp [facetOK, List.all_eq_true, List.contains_iff_exists_mem_beq,
      beq_iff_eq]
  · intro e he
    rcases hdecomp e he with ⟨r, _, hid, _, hitemsE⟩
    rw [hitemsE, hid, hires, filter_map_pair]
  · intro hq0 e he
    rcases hdecomp e he with ⟨r, _, _, hrank, _⟩
    have hq'' : q = "" := by
      rw [hqdef, hq0]
      rfl
    rw [hrank, hq'']
    simp

theorem claim_C1_witness :
    (∀ f ∈ ([] : List String), (parseFacet f).isSome) ∧
    (cexStore.series.map SeriesRow.id).Nodup ∧
    (∀ r ∈ cexStore.series, '|' ∉ r.id.data) ∧
    (∀ r ∈ cexStore.item, (pySplit '|' r.series_ids).Nodup) ∧
    (∃ pf res, ([] : List String).mapM parseFacet = some pf ∧
      get_search cexStore ftsAll "" [] SortType.sid = some res ∧
      (res.map SEntry.id).Perm
        ((cexStore.series.filter (fun r =>
          (effectiveQuery ftsAll "" = "" ||
            ftsAll.ftsMatch (effectiveQuery ftsAll "") r.text) &&
          (([] : List String).isEmpty || facetOK cexStore pf r.id))).map
            SeriesRow.id) ∧
      (∀ id, facetOK cexStore pf id = true ↔
        ∀ p ∈ pf, id ∈ browseSel cexStore p.1 p.2) ∧
      (∀ e ∈ res, e.items =
        ((orderItems (itemsSelected cexStore ftsAll
            (effectiveQuery ftsAll "") pf)).filter
          (fun ir => e.id ∈ pySplit '|' ir.series_ids)).map ItemRow.id) ∧
      ("" = "" → ∀ e ∈ res, e.rank = 0)) :=
  ⟨by simp, by decide, by decide, by decide,
    claim_C1_search_merge cexStore ftsAll "" [] SortType.sid
      (by simp) (by decide) (by decide) (by decide)⟩

mutual
theorem writeTree_ext (h : Heap) (t : PyTree) :
    (∃ ext, (writeTree h t).1 = h ++ ext) ∧
    (∀ i, h.length ≤ i → ∀ o, (writeTree h t).1.get? i = some o →
      ∀ a ∈ objRefs o, h.length ≤ a) ∧
    (∀ a ∈ valRefs (writeTree h t).2, h.length ≤ a) := by
  cases t with
  | prim s =>
    refine ⟨⟨[], by simp [writeTree]⟩, ?_, ?_⟩
    · intro i hi o ho
      rw [show (writeTree h (.prim s)).1 = h from rfl] at ho
      rw [List.get?_eq_getElem?] at ho
      have := List.getElem?_eq_none (l := h) (by omega : h.length ≤ i)
      rw [this] at ho
      exact absurd ho (by simp)
    · intro a ha
      exact absurd ha (by simp [writeTree, valRefs])
  | dangling =>
    refine ⟨⟨[], by simp [writeTree]⟩, ?_, ?_⟩
    · intro i hi o ho
      rw [show (writeTree h .dangling).1 = h from rfl] at ho
      rw [List.get?_eq_getElem?] at ho
      have := List.getElem?_eq_none (l := h) (by omega : h.length ≤ i)
      rw [this] at ho
      exact absurd ho (by simp)
    · intro a ha
      exact absurd ha (by simp [writeTree, valRefs])
  | dict fs =>
    have hf := writeFields_ext h fs
    rcases hf with ⟨⟨e1, he1⟩, hhc, hvals⟩
    have hres1 : (writeTree h (.dict fs)).1 =
        (writeFields h fs).1 ++ [.dict (writeFields h fs).2] := rfl
    have hres2 : (writeTree h (.dict fs)).2 = .ref (writeFields h fs).1.length := rfl
    have hlen : h.length ≤ (writeFields h fs).1.length := by
      rw [he1]; simp
    refine ⟨⟨e1 ++ [.dict (writeFields h fs).2], by rw [hres1, he1, List.append_assoc]⟩, ?_, ?_⟩
    · intro i hi o ho
      rw [hres1] at ho
      by_cases hcase : i < (writeFields h fs).1.length
      · rw [List.get?_append hcase] at ho
        exact hhc i hi o ho
      · rw [List.get?_append_right (Nat.le_of_not_lt hcase)] at ho
        have hi0 : i - (writeFields h fs).1.length = 0 ∨
            1 ≤ i - (writeFields h fs).1.length := by omega
        rcases hi0 with hi0 | hi0
        · rw [hi0] at ho
          simp only [List.get?] at ho
          injection ho with ho
          rw [← ho]
          intro a ha
          simp only [objRefs, List.mem_flatten, List.mem_map] at ha
          rcases ha with ⟨l, ⟨kv, hkv, hl⟩, hal⟩
          rw [← hl] at hal
          exact hvals kv hkv a hal
        · have : ([PyObj.dict (writeFields h fs).2].get? (i - (writeFields h fs).1.length)) = none := by
            rw [List.get?_eq_getElem?]
            apply List.getElem?_eq_none
            simp; omega
          rw [this] at ho
          exact absurd ho (by simp)
    · intro a ha
      rw [hres2] at ha
      simp only [valRefs, List.mem_singleton] at ha
      omega
  | arr es =>
    have hf := writeElems_ext h es
    rcases hf with ⟨⟨e1, he1⟩, hhc, hvals⟩
    have hres1 : (writeTree h (.arr es)).1 =
        (writeElems h es).1 ++ [.arr (writeElems h es).2] := rfl
    have hres2 : (writeTree h (.arr es)).2 = .ref (writeElems h es).1.length := rfl
    have hlen : h.length ≤ (writeElems h es).1.length := by
      rw [he1]; simp
    refine ⟨⟨e1 ++ [.arr (writeElems h es).2], by rw [hres1, he1, List.append_assoc]⟩, ?_, ?_⟩
    · intro i hi o ho
      rw [hres1] at ho
      by_cases hcase : i < (writeElems h es).1.length
      · rw [List.get?_append hcase] at ho
        exact hhc i hi o ho
      · rw [List.get?_append_right (Nat.le_of_not_lt hcase)] at ho
        have hi0 : i - (writeElems h es).1.length = 0 ∨
            1 ≤ i - (writeElems h es).1.length := by omega
        rcases hi0 with hi0 | hi0
        · rw [hi0] at ho
          simp only [List.get?] at ho
          injection ho with ho
          rw [← ho]
          intro a ha
          simp only [objRefs, List.mem_flatten, List.mem_map] at ha
          rcases ha with ⟨l, ⟨v, hv, hl⟩, hal⟩
          rw [← hl] at hal
          exact hvals v hv a hal
        · have : ([PyObj.arr (writeElems h es).2].get? (i - (writeElems h es).1.length)) = none := by
            rw [List.get?_eq_getElem?]
            apply List.getElem?_eq_none
            simp; omega
          rw [this] at ho
          exact absurd ho (by simp)
    · intro a ha
      rw [hres2] at ha
      simp only [valRefs, List.mem_singleton] at ha
      omega

theorem writeFields_ext (h : Heap) (fs : List (String × PyTree)) :
    (∃ ext, (writeFields h fs).1 = h ++ ext) ∧
    (∀ i, h.length ≤ i → ∀ o, (writeFields h fs).1.get? i = some o →
      ∀ a ∈ objRefs o, h.length ≤ a) ∧
    (∀ kv ∈ (writeFields h fs).2, ∀ a ∈ valRefs kv.2, h.length ≤ a) := by
  cases fs with
  | nil =>
    refine ⟨⟨[], by simp [writeFields]⟩, ?_, ?_⟩
    · intro i hi o ho
      rw [show (writeFields h []).1 = h from rfl] at ho
      rw [List.get?_eq_getElem?] at ho
      rw [List.getElem?_eq_none (l := h) (by omega : h.length ≤ i)] at ho
      exact absurd ho (by simp)
    · intro kv hkv
      exact absurd hkv (by simp [writeFields])
  | cons kt r =>
    have hp := writeTree_ext h kt.2
    rcases hp with ⟨⟨e1, he1⟩, hhc1, hval1⟩
    have hq := writeFields_ext (writeTree h kt.2).1 r
    rcases hq with ⟨⟨e2, he2⟩, hhc2, hval2⟩
    have hlen1 : h.length ≤ (writeTree h kt.2).1.length := by
      rw [he1]; simp
    have hres1 : (writeFields h (kt :: r)).1 = (writeFields (writeTree h kt.2).1 r).1 := by
      rw [show writeFields h (kt :: r) =
        ((writeFields (writeTree h kt.2).1 r).1,
         (kt.1, (writeTree h kt.2).2) :: (writeFields (writeTree h kt.2).1 r).2) from rfl]
    have hres2 : (writeFields h (kt :: r)).2 =
        (kt.1, (writeTree h kt.2).2) :: (writeFields (writeTree h kt.2).1 r).2 := rfl
    refine ⟨⟨e1 ++ e2, by rw [hres1, he2, he1, List.append_assoc]⟩, ?_, ?_⟩
    · intro i hi o ho
      rw [hres1] at ho
      by_cases hcase : i < (writeTree h kt.2).1.length
      · rw [he2, List.get?_append hcase] at ho
        exact hhc1 i hi o ho
      · intro a ha
        exact Nat.le_trans hlen1 (hhc2 i (Nat.le_of_not_lt hcase) o ho a ha)
    · intro kv hkv
      rw [hres2] at hkv
      rcases List.mem_cons.mp hkv with hkv | hkv
      · rw [hkv]
        exact hval1
      · intro a ha
        exact Nat.le_trans hlen1 (hval2 kv hkv a ha)

theorem writeElems_ext (h : Heap) (es : List PyTree) :
    (∃ ext, (writeElems h es).1 = h ++ ext) ∧
    (∀ i, h.length ≤ i → ∀ o, (writeElems h es).1.get? i = some o →
      ∀ a ∈ objRefs o, h.length ≤ a) ∧
    (∀ v ∈ (writeElems h es).2, ∀ a ∈ valRefs v, h.length ≤ a) := by
  cases es with
  | nil =>
    refine ⟨⟨[], by simp [writeElems]⟩, ?_, ?_⟩
    · intro i hi o ho
      rw [show (writeElems h []).1 = h from rfl] at ho
      rw [List.get?_eq_getElem?] at ho
      rw [List.getElem?_eq_none (l := h) (by omega : h.length ≤ i)] at ho
      exact absurd ho (by simp)
    · intro v hv
      exact absurd hv (by simp [writeElems])
  | cons t r =>
    have hp := writeTree_ext h t
    rcases hp with ⟨⟨e1, he1⟩, hhc1, hval1⟩
    have hq := writeElems_ext (writeTree h t).1 r
    rcases hq with ⟨⟨e2, he2⟩, hhc2, hval2⟩
    have hlen1 : h.length ≤ (writeTree h t).1.length := by
      rw [he1]; simp
    have hres1 : (writeElems h (t :: r)).1 = (writeElems (writeTree h t).1 r).1 := rfl
    have hres2 : (writeElems h (t :: r)).2 =
        (writeTree h t).2 :: (writeElems (writeTree h t).1 r).2 := rfl
    refine ⟨⟨e1 ++ e2, by rw [hres1, he2, he1, List.append_assoc]⟩, ?_, ?_⟩
    · intro i hi o ho
      rw [hres1] at ho
      by_cases hcase : i < (writeTree h t).1.length
      · rw [he2, List.get?_append hcase] at ho
        exact hhc1 i hi o ho
      · intro a ha
        exact Nat.le_trans hlen1 (hhc2 i (Nat.le_of_not_lt hcase) o ho a ha)
    · intro v hv
      rw [hres2] at hv
      rcases List.mem_cons.mp hv with hv | hv
      · rw [hv]
        exact hval1
      · intro a ha
        exact Nat.le_trans hlen1 (hval2 v hv a ha)
end

theorem reachableF_high (n : Nat) :
    ∀ (f : Nat) (h : Heap) (v : PyVal), HighClosed n h →
      (∀ a ∈ valRefs v, n ≤ a) → ∀ a ∈ reachableF f h v, n ≤ a := by
  intro f
  induction f with
  | zero =>
    intro h v hhc hv a ha
    cases v with
    | prim s => exact absurd ha (by simp [reachableF])
    | ref b =>
      simp only [reachableF, List.mem_singleton] at ha
      rw [ha]
      exact hv b (by simp [valRefs])
  | succ f ih =>
    intro h v hhc hv a ha
    cases v with
    | prim s => exact absurd ha (by simp [reachableF])
    | ref b =>
      have hb : n ≤ b := hv b (by simp [valRefs])
      simp only [reachableF] at ha
      rcases List.mem_cons.mp ha with ha | ha
      · rw [ha]; exact hb
      · cases hgb : h.get? b with
        | none => rw [hgb] at ha; exact absurd ha (by simp)
        | some o =>
          rw [hgb] at ha
          have hrefs : ∀ a2 ∈ objRefs o, n ≤ a2 := hhc b hb o hgb
          cases o with
          | dict fs =>
            simp only [List.mem_flatten, List.mem_map] at ha
            rcases ha with ⟨l, ⟨kv, hkv, hl⟩, hal⟩
            rw [← hl] at hal
            refine ih h kv.2 hhc ?_ a hal
            intro a2 ha2
            refine hrefs a2 ?_
            simp only [objRefs, List.mem_flatten, List.mem_map]
            exact ⟨valRefs kv.2, ⟨kv, hkv, rfl⟩, ha2⟩
          | arr es =>
            simp only [List.mem_flatten, List.mem_map] at ha
            rcases ha with ⟨l, ⟨v2, hv2, hl⟩, hal⟩
            rw [← hl] at hal
            refine ih h v2 hhc ?_ a hal
            intro a2 ha2
            refine hrefs a2 ?_
            simp only [objRefs, List.mem_flatten, List.mem_map]
            exact ⟨valRefs v2, ⟨v2, hv2, rfl⟩, ha2⟩

theorem readVal_congr (n : Nat) :
    ∀ (f : Nat) (h h2 : Heap) (v : PyVal), ClosedBelow n h →
      (∀ i, i < n → h2.get? i = h.get? i) →
      (∀ a ∈ valRefs v, a < n) →
      readVal f h2 v = readVal f h v := by
  intro f
  induction f with
  | zero =>
    intro h h2 v hcb hag hv
    cases v <;> rfl
  | succ f ih =>
    intro h h2 v hcb hag hv
    cases v with
    | prim s => rfl
    | ref b =>
      have hb : b < n := hv b (by simp [valRefs])
      simp only [readVal]
      rw [hag b hb]
      cases hgb : h.get? b with
      | none => rfl
      | some o =>
        have hrefs : ∀ a ∈ objRefs o, a < n := hcb b hb o hgb
        cases o with
        | dict fs =>
          show PyTree.dict _ = PyTree.dict _
          refine congrArg PyTree.dict (List.map_congr_left ?_)
          intro kv hkv
          refine congrArg (Prod.mk kv.1) (ih h h2 kv.2 hcb hag ?_)
          intro a ha
          refine hrefs a ?_
          simp only [objRefs, List.mem_flatten, List.mem_map]
          exact ⟨valRefs kv.2, ⟨kv, hkv, rfl⟩, ha⟩
        | arr es =>
          show PyTree.arr _ = PyTree.arr _
          refine congrArg PyTree.arr (List.map_congr_left ?_)
          intro v2 hv2
          refine ih h h2 v2 hcb hag ?_
          intro a ha
          refine hrefs a ?_
          simp only [objRefs, List.mem_flatten, List.mem_map]
          exact ⟨valRefs v2, ⟨v2, hv2, rfl⟩, ha⟩

/-- C6.  Corrected cache-aliasing guarantee.  Only the plain
`get_item` path is a deep copy: on a well-formed cache (heap closed
below its length, every cached root pointing into the heap),
`get_item` returns a record living entirely at fresh addresses, and
overwriting any fresh address - in particular any part of the
returned record - leaves the denotation of every cached item and
series record unchanged at every read depth.  (`get_series_info`
returns the cached object itself, and `get_item` with
`get_format_relationships=True` splices cached records into the copy;
both are refuted separately.) -/
theorem claim_C6_get_item_deepcopy (st : HState) (k : String) (v : PyVal)
    (st2 : HState)
    (hwf : ClosedBelow st.heap.length st.heap)
    (hroots : ∀ (key : String) (r : PyVal),
      (dictGetLast st.item_info key = some r ∨
        dictGetLast st.series_info key = some r) →
      ∀ a ∈ valRefs r, a < st.heap.length)
    (hget : hGetItem st k = some (v, st2)) :
    (∀ a ∈ reachable st2.heap v, st.heap.length ≤ a) ∧
    (∀ a, st.heap.length ≤ a → ∀ (o : PyObj) (f : Nat) (key : String) (r : PyVal),
      (dictGetLast st.item_info key = some r ∨
        dictGetLast st.series_info key = some r) →
      readVal f (mutate st2.heap a o) r = readVal f st.heap r) := by
  unfold hGetItem at hget
  cases hroot : dictGetLast st.item_info k with
  | none => rw [hroot] at hget; exact absurd hget (by simp)
  | some root =>
    rw [hroot] at hget
    simp only [Option.map_some', Option.some.injEq, Prod.mk.injEq] at hget
    obtain ⟨hv, hst2⟩ := hget
    unfold deepcopy at hv
    have hw := writeTree_ext st.heap (readRec st.heap root)
    rcases hw with ⟨⟨ext, hext⟩, hhc, hvals⟩
    have hheap : st2.heap = (writeTree st.heap (readRec st.heap root)).1 := by
      rw [← hst2]
      unfold deepcopy
      rfl
    constructor
    · intro a ha
      refine reachableF_high st.heap.length _ st2.heap v ?_ ?_ a ha
      · intro i hi o ho
        rw [hheap] at ho
        exact hhc i hi o ho
      · intro a2 ha2
        rw [← hv] at ha2
        exact hvals a2 ha2
    · intro a hale o f key r hr
      have hrlow : ∀ a2 ∈ valRefs r, a2 < st.heap.length := hroots key r hr
      refine readVal_congr st.heap.length f st.heap (mutate st2.heap a o) r hwf ?_ hrlow
      intro i hi
      unfold mutate
      rw [List.get?_eq_getElem?, List.get?_eq_getElem?]
      rw [List.getElem?_set_ne (by omega : a ≠ i)]
      rw [hheap, hext]
      exact List.getElem?_append_left hi

theorem claim_C6_counterexample :
    hGetSeriesInfo hsState "S" = some (.ref 0) ∧
    hGetSeriesInfo { hsState with
      heap := mutate hsState.heap 0 (.dict [("title", .prim "new")]) } "S" =
      some (.ref 0) ∧
    readRec (mutate hsState.heap 0 (.dict [("title", .prim "new")])) (.ref 0) ≠
      readRec hsState.heap (.ref 0) ∧
    hGetItemFmt hfState "I" = some (.ref 6, { hfState with heap := hfAfter }) ∧
    (0 ∈ reachable hfAfter (.ref 6) ∧ 0 < hfState.heap.length) ∧
    readRec (mutate hfAfter 0 (.dict [("x", .prim "jnew")])) (.ref 0) ≠
      readRec hfAfter (.ref 0) := by
  refine ⟨rfl, rfl, ?_, rfl, by decide, ?_⟩
  · intro h
    rw [show readRec (mutate hsState.heap 0
          (.dict [("title", .prim "new")])) (.ref 0) =
        PyTree.dict [("title", .prim "new")] from rfl,
      show readRec hsState.heap (.ref 0) =
        PyTree.dict [("title", .prim "old")] from rfl] at h
    simp at h
  · intro h
    rw [show readRec (mutate hfAfter 0 (.dict [("x", .prim "jnew")])) (.ref 0) =
        PyTree.dict [("x", .prim "jnew")] from rfl,
      show readRec hfAfter (.ref 0) =
        PyTree.dict [("x", .prim "jold")] from rfl] at h
    simp at h

theorem claim_C6_witness :
    ClosedBelow wC6.heap.length wC6.heap ∧
    (∀ (key : String) (r : PyVal),
      (dictGetLast wC6.item_info key = some r ∨
        dictGetLast wC6.series_info key = some r) →
      ∀ a ∈ valRefs r, a < wC6.heap.length) ∧
    hGetItem wC6 "I" = some (.ref 1,
      { wC6 with heap := wC6.heap ++ [.dict [("t", .prim "x")]] }) ∧
    ((∀ a ∈ reachable (wC6.heap ++ [.dict [("t", .prim "x")]]) (.ref 1),
        wC6.heap.length ≤ a) ∧
      (∀ a, wC6.heap.length ≤ a →
        ∀ (o : PyObj) (f : Nat) (key : String) (r : PyVal),
        (dictGetLast wC6.item_info key = some r ∨
          dictGetLast wC6.series_info key = some r) →
        readVal f (mutate (wC6.heap ++ [.dict [("t", .prim "x")]]) a o) r =
          readVal f wC6.heap r)) := by
  have hwf : ClosedBelow wC6.heap.length wC6.heap := by
    intro i hi o ho a ha
    have hi0 : i = 0 := by
      simp only [wC6, List.length_cons, List.length_nil] at hi
      omega
    subst hi0
    have ho2 : o = .dict [("t", .prim "x")] := by
      simp only [wC6, List.get?] at ho
      injection ho with ho
      exact ho.symm
    rw [ho2] at ha
    simp [objRefs, valRefs] at ha
  have hroots : ∀ (key : String) (r : PyVal),
      (dictGetLast wC6.item_info key = some r ∨
        dictGetLast wC6.series_info key = some r) →
      ∀ a ∈ valRefs r, a < wC6.heap.length := by
    intro key r hr a ha
    rcases hr with hr | hr
    · by_cases hk : ("I" : String) = key
      · simp only [dictGetLast, wC6, List.filter, hk] at hr
        simp at hr
        rw [← hr] at ha
        simp only [valRefs, List.mem_singleton] at ha
        rw [ha]
        simp [wC6]
      · simp [dictGetLast, wC6, List.filter, hk] at hr
    · simp [dictGetLast, wC6] at hr
  exact ⟨hwf, hroots, rfl,
    claim_C6_get_item_deepcopy wC6 "I" (.ref 1)
      { wC6 with heap := wC6.heap ++ [.dict [("t", .prim "x")]] } hwf hroots rfl⟩
